import Mathlib

/-
Formal model of the image-transform pipeline and icon resolver in
libqtile/images.py: the lazy, cached Img handle (surface/pattern caches,
width/height/theta descriptors), the affine matrix built by
get_cairo_pattern, and the Loader name-resolution algorithm.

Modelling conventions.
Python floats are modelled as rationals for the Img state machine
(only casts and comparisons happen there) and as real numbers for the
cairo matrix algebra (where cos and sin appear); the literal
pi = 3.141592653589793 in get_cairo_pattern is the IEEE double nearest
the real number pi and is modelled as Real.pi, so statements about the
matrix hold up to floating tolerance.
Object identity of cairo surfaces and patterns is modelled by tagging
each decoded surface and each built pattern with a fresh counter value
drawn from next_id.  The decoder boundary (cairocffi.pixbuf
.decode_to_image_surface) is external; it returns a fresh surface of the
requested size, or of the natural size of the encoded bytes when no size
is given.  decodes_natural and decodes_with_size count the decoder calls
of each kind.  Sets kept by the Python code are modelled as duplicate-free
lists; dict assignment is modelled by upsert below.
-/

/-- Encoded image bytes, abstracted to the data the model needs: the
intrinsic (natural) pixel size that a decode without target size yields. -/
structure BytesImg where
  natW : Int
  natH : Int
deriving DecidableEq

/-- Decoded cairo ImageSurface: an object identity tag plus its pixel size. -/
structure Surface where
  sid : Nat
  w : Int
  h : Int
deriving DecidableEq

/-- Cairo SurfacePattern as built by Img.pattern: an object identity tag,
the identity of the surface it wraps, and the width, height and theta it
was built from. -/
structure Pattern where
  pid : Nat
  surfId : Nat
  w : Int
  h : Int
  theta : Rat
deriving DecidableEq

/-- State of one Img handle: the encoded bytes, the three descriptor
backing attributes (_theta, _width, _height), the four cache attributes
(_default_surface, _default_size, _surface, _pattern), the fresh-identity
counter, the decoder call counters, and the identities of surfaces on
which finish() has been called. -/
structure ImgState where
  bytes : BytesImg
  theta_attr : Option Rat
  width_attr : Option Int
  height_attr : Option Int
  default_surface_attr : Option Surface
  default_size_attr : Option (Int × Int)
  surface_attr : Option Surface
  pattern_attr : Option Pattern
  next_id : Nat
  decodes_with_size : Nat
  decodes_natural : Nat
  finished : List Nat
deriving DecidableEq

/-- Img(bytes_img): a fresh handle with no attribute set and no cache. -/
def Img.init (b : BytesImg) : ImgState :=
  { bytes := b, theta_attr := none, width_attr := none, height_attr := none,
    default_surface_attr := none, default_size_attr := none,
    surface_attr := none, pattern_attr := none,
    next_id := 0, decodes_with_size := 0, decodes_natural := 0, finished := [] }

/-- Decoder call without a target size (get_cairo_surface(bytes_img)):
a fresh surface at the natural size of the bytes. -/
def decodeNatural (s : ImgState) : Surface × ImgState :=
  (⟨s.next_id, s.bytes.natW, s.bytes.natH⟩,
   { s with next_id := s.next_id + 1, decodes_natural := s.decodes_natural + 1 })

/-- Decoder call with a target size (get_cairo_surface(bytes_img, w, h)):
a fresh surface at the requested size. -/
def decodeAt (s : ImgState) (w h : Int) : Surface × ImgState :=
  (⟨s.next_id, w, h⟩,
   { s with next_id := s.next_id + 1, decodes_with_size := s.decodes_with_size + 1 })

/-- Img.default_surface property: return the cached _default_surface, or
decode the bytes without a target size and cache the result. -/
def Img.default_surface (s : ImgState) : Surface × ImgState :=
  match s.default_surface_attr with
  | some surf => (surf, s)
  | none =>
    let r := decodeNatural s
    (r.1, { r.2 with default_surface_attr := some r.1 })

/-- Img.default_size property: return the cached _default_size, or read
default_surface and cache its size. -/
def Img.default_size (s : ImgState) : (Int × Int) × ImgState :=
  match s.default_size_attr with
  | some sz => (sz, s)
  | none =>
    let r := Img.default_surface s
    ((r.1.w, r.1.h), { r.2 with default_size_attr := some (r.1.w, r.1.h) })

/-- Img.width read (_PixelSize.__get__): the stored _width, or the width
component of default_size as the default. -/
def Img.width (s : ImgState) : Int × ImgState :=
  match s.width_attr with
  | some w => (w, s)
  | none =>
    let r := Img.default_size s
    (r.1.1, r.2)

/-- Img.height read (_PixelSize.__get__): the stored _height, or the height
component of default_size as the default. -/
def Img.height (s : ImgState) : Int × ImgState :=
  match s.height_attr with
  | some h => (h, s)
  | none =>
    let r := Img.default_size s
    (r.1.2, r.2)

/-- Img.theta read (_Rotation.__get__): the stored _theta or the default 0.0.
Reading theta never touches any cache. -/
def Img.theta (s : ImgState) : Rat :=
  s.theta_attr.getD 0

/-- Width the handle currently exposes, as a pure observation: the stored
_width if set, else the natural width.  Under the reachable-state invariant
this coincides with the value the width property returns. -/
def Img.currentWidth (s : ImgState) : Int :=
  s.width_attr.getD s.bytes.natW

/-- Height analogue of currentWidth. -/
def Img.currentHeight (s : ImgState) : Int :=
  s.height_attr.getD s.bytes.natH

/-- Img.surface property: return the cached _surface, or decode the bytes at
the current width and height (arguments evaluated in that order) and cache
the fresh surface. -/
def Img.surface (s : ImgState) : Surface × ImgState :=
  match s.surface_attr with
  | some surf => (surf, s)
  | none =>
    let rw := Img.width s
    let rh := Img.height rw.2
    let rd := decodeAt rh.2 rw.1 rh.1
    (rd.1, { rd.2 with surface_attr := some rd.1 })

/-- Img.pattern property: return the cached _pattern, or build a fresh
pattern from the surface property and the current width, height and theta
(argument order of get_cairo_pattern(self.surface, self.width, self.height,
self.theta)), and cache it. -/
def Img.pattern (s : ImgState) : Pattern × ImgState :=
  match s.pattern_attr with
  | some p => (p, s)
  | none =>
    let rs := Img.surface s
    let rw := Img.width rs.2
    let rh := Img.height rw.2
    let t := Img.theta rh.2
    let p : Pattern := ⟨rh.2.next_id, rs.1.sid, rw.1, rh.1, t⟩
    (p, { rh.2 with pattern_attr := some p, next_id := rh.2.next_id + 1 })

/-- Img._reset.  The guard hasattr(self, "surface") invokes the surface
property getter, which lazily builds and caches a surface when none is
cached, so the guard always succeeds; then self.surface.finish() runs and
del self.surface clears the cache.  The guard hasattr(self, "pattern")
likewise forces the pattern property, whose build re-decodes and re-caches
a surface (the one just deleted), after which del self.pattern clears only
the pattern cache.  The model reproduces this forcing behaviour exactly.
delSurface is the combined effect of self.surface.finish() (the cached
surface identity is recorded as finished) and del self.surface. -/
def delSurface (s : ImgState) (fid : Nat) : ImgState :=
  { s with finished := fid :: s.finished, surface_attr := none }

def Img.reset (s : ImgState) : ImgState :=
  let r1 := Img.surface s
  let r3 := Img.pattern (delSurface r1.2 r1.1.sid)
  { r3.2 with pattern_attr := none }

/-- Python round() on a rational: round half to even. -/
def pyRound (q : Rat) : Int :=
  let f := ⌊q⌋
  let r := q - f
  if r < 1/2 then f
  else if 1/2 < r then f + 1
  else if f % 2 = 0 then f else f + 1

/-- Writing theta (_Rotation.__set__): cast to float, store, then _reset. -/
def Img.set_theta (s : ImgState) (v : Rat) : ImgState :=
  Img.reset { s with theta_attr := some v }

/-- Writing width (_PixelSize.__set__): value = max(round(value), 1),
store, then _reset. -/
def Img.set_width (s : ImgState) (v : Rat) : ImgState :=
  Img.reset { s with width_attr := some (max (pyRound v) 1) }

/-- Writing height (_PixelSize.__set__): value = max(round(value), 1),
store, then _reset. -/
def Img.set_height (s : ImgState) (v : Rat) : ImgState :=
  Img.reset { s with height_attr := some (max (pyRound v) 1) }

/-- Errors raised by Img.resize, Img.scale and Img._scale_lock. -/
inductive ImgError where
  | missingResizeArg
  | missingScaleFactor
  | lockedBothFactors
  | noneArithmetic
deriving DecidableEq

/-- Python truthiness of an optional float: None and 0.0 are falsy. -/
def truthy : Option Rat → Bool
  | none => false
  | some q => q != 0

/-- Img._scale_lock(width_factor, height_factor, initial_size).  Raises when
both factors are truthy; otherwise derives the unset dimension from the
aspect ratio of initial_size.  When neither factor is truthy the Python code
evaluates height0 * None and raises a TypeError (noneArithmetic); that path
is unreachable through Img.scale. -/
def Img.scale_lock (wf hf : Option Rat) (size : Int × Int) :
    Except ImgError (Rat × Rat) :=
  if truthy wf && truthy hf then .error .lockedBothFactors
  else if truthy wf then
    let w : Rat := (size.1 : Rat) * wf.getD 1
    .ok (w, (size.2 : Rat) / (size.1 : Rat) * w)
  else
    match hf with
    | none => .error .noneArithmetic
    | some f =>
      let h : Rat := (size.2 : Rat) * f
      .ok ((size.1 : Rat) / (size.2 : Rat) * h, h)

/-- Img._scale_free(width_factor, height_factor, initial_size): unset
factors default to 1. -/
def Img.scale_free (wf hf : Option Rat) (size : Int × Int) : Rat × Rat :=
  ((size.1 : Rat) * wf.getD 1, (size.2 : Rat) * hf.getD 1)

/-- Img.scale(width_factor, height_factor, lock_aspect_ratio): fail unless
some factor is truthy, then compute the new size (reading default_size) and
write it through the width and height setters, width first. -/
def Img.scale (s : ImgState) (wf hf : Option Rat) (lock : Bool) :
    Except ImgError Unit × ImgState :=
  if truthy wf || truthy hf then
    let rd := Img.default_size s
    match (if lock then Img.scale_lock wf hf rd.1 else .ok (Img.scale_free wf hf rd.1)) with
    | .error e => (.error e, rd.2)
    | .ok wh =>
      let s2 := Img.set_width rd.2 wh.1
      let s3 := Img.set_height s2 wh.2
      (.ok (), s3)
  else (.error .missingScaleFactor, s)

/-- Img.resize(width, height): read default_size first, convert the given
absolute sizes to factors, then dispatch on the truthiness of the original
arguments: both truthy gives an independent scale, one truthy gives an
aspect-locked scale, neither raises. -/
def Img.resize (s : ImgState) (width height : Option Rat) :
    Except ImgError Unit × ImgState :=
  let rd := Img.default_size s
  let wf := width.map (fun w => w / (rd.1.1 : Rat))
  let hf := height.map (fun h => h / (rd.1.2 : Rat))
  if truthy width && truthy height then Img.scale rd.2 wf hf false
  else if truthy width || truthy height then Img.scale rd.2 wf hf true
  else (.error .missingResizeArg, rd.2)

/-- Alphabet of public operations on one Img handle, used to quantify over
every sequence of operations. -/
inductive ImgOp where
  | set_width (v : Rat)
  | set_height (v : Rat)
  | set_theta (v : Rat)
  | read_surface
  | read_pattern
  | read_default_surface
  | read_default_size
  | read_width
  | read_height
  | do_resize (w h : Option Rat)
  | do_scale (wf hf : Option Rat) (lock : Bool)

/-- Effect of one operation on the handle state (results and raised errors
are discarded; the Python object keeps its mutated state either way). -/
def stepOp (s : ImgState) : ImgOp → ImgState
  | .set_width v => Img.set_width s v
  | .set_height v => Img.set_height s v
  | .set_theta v => Img.set_theta s v
  | .read_surface => (Img.surface s).2
  | .read_pattern => (Img.pattern s).2
  | .read_default_surface => (Img.default_surface s).2
  | .read_default_size => (Img.default_size s).2
  | .read_width => (Img.width s).2
  | .read_height => (Img.height s).2
  | .do_resize w h => (Img.resize s w h).2
  | .do_scale wf hf lock => (Img.scale s wf hf lock).2

/-- Run a sequence of operations. -/
def runOps (s : ImgState) (ops : List ImgOp) : ImgState :=
  ops.foldl stepOp s

/-- Affine matrix in the cairo layout: mapping
(x, y) to (xx*x + xy*y + x0, yx*x + yy*y + y0). -/
structure Matrix2 where
  xx : Real
  yx : Real
  xy : Real
  yy : Real
  x0 : Real
  y0 : Real

/-- Action of a cairo matrix on a point. -/
def Matrix2.apply (m : Matrix2) (p : Real × Real) : Real × Real :=
  (m.xx * p.1 + m.xy * p.2 + m.x0, m.yx * p.1 + m.yy * p.2 + m.y0)

/-- Composition with a applied second: (comp a b).apply p = a.apply (b.apply p). -/
def Matrix2.comp (a b : Matrix2) : Matrix2 :=
  { xx := a.xx * b.xx + a.xy * b.yx
    yx := a.yx * b.xx + a.yy * b.yx
    xy := a.xx * b.xy + a.xy * b.yy
    yy := a.yx * b.xy + a.yy * b.yy
    x0 := a.xx * b.x0 + a.xy * b.y0 + a.x0
    y0 := a.yx * b.x0 + a.yy * b.y0 + a.y0 }

/-- Cairo identity matrix (cairocffi.Matrix()). -/
def Matrix2.identity : Matrix2 :=
  { xx := 1, yx := 0, xy := 0, yy := 1, x0 := 0, y0 := 0 }

/-- Cairo init-translate matrix. -/
def Matrix2.translation (tx ty : Real) : Matrix2 :=
  { xx := 1, yx := 0, xy := 0, yy := 1, x0 := tx, y0 := ty }

/-- Cairo init-scale matrix. -/
def Matrix2.scaling (sx sy : Real) : Matrix2 :=
  { xx := sx, yx := 0, xy := 0, yy := sy, x0 := 0, y0 := 0 }

/-- Cairo init-rotate matrix for a counter-clockwise angle in radians. -/
noncomputable def Matrix2.rotation (t : Real) : Matrix2 :=
  { xx := Real.cos t, yx := Real.sin t, xy := -Real.sin t, yy := Real.cos t,
    x0 := 0, y0 := 0 }

/-- Matrix.translate method (cairo_matrix_translate): the translation is
applied to coordinates before the existing transformation. -/
def Matrix2.translateOp (m : Matrix2) (tx ty : Real) : Matrix2 :=
  Matrix2.comp m (Matrix2.translation tx ty)

/-- Matrix.scale method (cairo_matrix_scale): the scaling is applied to
coordinates before the existing transformation. -/
def Matrix2.scaleOp (m : Matrix2) (sx sy : Real) : Matrix2 :=
  Matrix2.comp m (Matrix2.scaling sx sy)

/-- Matrix.rotate method (cairo_matrix_rotate): the rotation is applied to
coordinates before the existing transformation. -/
noncomputable def Matrix2.rotateOp (m : Matrix2) (t : Real) : Matrix2 :=
  Matrix2.comp m (Matrix2.rotation t)

/-- a.multiply(b) in cairocffi (cairo_matrix_multiply(result, a, b)): the
resulting transformation applies a to the coordinates first, then b. -/
def Matrix2.multiply (a b : Matrix2) : Matrix2 :=
  Matrix2.comp b a

/-- Scale ratio of get_cairo_pattern for one axis: surf/target when a target
size is given and differs from the surface size, else 1.0. -/
noncomputable def trDim (surf : Real) (target : Option Real) : Real :=
  match target with
  | none => 1
  | some t => if t ≠ surf then surf / t else 1

/-- Matrix installed on the pattern by
get_cairo_pattern(surface, width, height, theta): scale by the two ratios;
when abs(theta) exceeds epsilon = 1.0e-6, build the translate-rotate-translate
matrix at (xt, yt) = (surf_width*tr_width*0.5, surf_height*tr_height*0.5) and
multiply it with the scale matrix (rotation applied to coordinates first).
The literal pi = 3.141592653589793 of the source is modelled as Real.pi. -/
noncomputable def get_cairo_pattern_matrix (surf_width surf_height : Real)
    (width height : Option Real) (theta : Real) : Matrix2 :=
  let tr_width := trDim surf_width width
  let tr_height := trDim surf_height height
  let matrix := Matrix2.identity.scaleOp tr_width tr_height
  if 1.0e-6 < |theta| then
    let theta_rad := Real.pi / 180 * theta
    let xt := surf_width * tr_width * 0.5
    let yt := surf_height * tr_height * 0.5
    let mat_rot := ((Matrix2.identity.translateOp xt yt).rotateOp theta_rad).translateOp (-xt) (-yt)
    Matrix2.multiply mat_rot matrix
  else matrix

/-- Rotation about the point (cx, cy), written directly as an affine map:
translate by (-cx, -cy), rotate, translate back. -/
noncomputable def rotAboutM (cx cy t : Real) : Matrix2 :=
  Matrix2.comp (Matrix2.translation cx cy)
    (Matrix2.comp (Matrix2.rotation t) (Matrix2.translation (-cx) (-cy)))

/-- Index of the last dot in a character list, if any. -/
def lastDotIdx (cs : List Char) : Option Nat :=
  (List.range cs.length).foldl
    (fun acc i => if cs.getD i ' ' == '.' then some i else acc) none

/-- Modelled from the spec and the documented behaviour of os.path.splitext
(Python standard library, outside this repository), restricted to the bare
icon names the Loader receives (no directory separators): the extension
starts at the last dot, provided some earlier character is not a dot; a name
whose leading characters up to the last dot are all dots has no extension. -/
def splitext (n : String) : String × String :=
  let cs := n.data
  match lastDotIdx cs with
  | none => (n, "")
  | some i =>
    if (cs.take i).any (fun c => c != '.') then (⟨cs.take i⟩, ⟨cs.drop i⟩)
    else (n, "")

/-- Query synthesized by Loader.__call__ for one requested name: the name
itself when it carries an extension, otherwise name + ".*". -/
def synthName (n : String) : String :=
  if (splitext n).2 ≠ "" then n else n ++ ".*"

/-- The synthesized query set set_names, as a duplicate-free list (Python
keeps a set; the claims proved below do not depend on its order). -/
def synthNames (names : List String) : List String :=
  (names.map synthName).dedup

/-- Result key for a resolved query: the original requested name when the
query appears verbatim in the request list, else the query with the two
trailing wildcard characters ".*" stripped (name[:-2]). -/
def resKey (names : List String) (q : String) : String :=
  if q ∈ names then q else q.dropRight 2

/-- Python dict assignment d[k] = v on an association list: replace the
value at an existing key in place, else append the new binding. -/
def upsert {H : Type} (d : List (String × H)) (k : String) (v : H) :
    List (String × H) :=
  if d.any (fun kv => kv.1 == k) then
    d.map (fun kv => if kv.1 == k then (k, v) else kv)
  else d ++ [(k, v)]

/-- The loader instance: the attributes dynamically attached by __init__ via
setattr, and the ordered directory list. -/
structure LoaderState (A : Type) where
  attrs : List (String × A)
  directories : List String
deriving DecidableEq

/-- Python setattr on the modelled attribute dictionary. -/
def setattrA {A : Type} (attrs : List (String × A)) (k : String) (v : A) :
    List (String × A) :=
  if attrs.any (fun kv => kv.1 == k) then
    attrs.map (fun kv => if kv.1 == k then (k, v) else kv)
  else attrs ++ [(k, v)]

/-- getattr on the modelled attribute dictionary, as an Option. -/
def getattrA {A : Type} (attrs : List (String × A)) (k : String) : Option A :=
  (attrs.find? (fun kv => kv.1 == k)).map (fun kv => kv.2)

/-- Loader.__init__(*directories, **kwargs): every keyword option is stored
on the instance with setattr, whatever its name, and the directory list is
kept in order.  Construction never fails. -/
def Loader.init {A : Type} (directories : List String)
    (kwargs : List (String × A)) : LoaderState A :=
  { attrs := kwargs.foldl (fun a kv => setattrA a kv.1 kv.2) [],
    directories := directories }

/-- Intermediate state of one Loader.__call__ resolution: the result dict d,
the seen set (as a list), and an instrumentation log of every (directory,
query) pair handed to the directory scanner, which makes "later directories
are never consulted for a resolved query" a statement about the model. -/
structure ResolveState (H : Type) where
  found : List (String × H)
  seen : List String
  consults : List (String × String)

/-- Processing of one entry of the scan result of one directory: a query
with no candidate paths is skipped, otherwise its first candidate is loaded
via from_path and recorded under its result key, and the query is marked
seen. -/
def processQuery {H : Type} (scan : String → String → List String)
    (fromPath : String → H) (names : List String) (dir : String)
    (st : ResolveState H) (q : String) : ResolveState H :=
  match scan dir q with
  | [] => st
  | p :: _ =>
    { st with found := upsert st.found (resKey names q) (fromPath p),
              seen := st.seen ++ [q] }

/-- One directory of the Loader.__call__ loop: scan_files is invoked with
the queries not yet seen (logged in consults), and each returned entry is
processed. -/
def processDir {H : Type} (scan : String → String → List String)
    (fromPath : String → H) (names : List String) (st : ResolveState H)
    (dir : String) : ResolveState H :=
  let queries := (synthNames names).filter (fun q => decide (q ∉ st.seen))
  let st1 := { st with consults := st.consults ++ queries.map (fun q => (dir, q)) }
  queries.foldl (processQuery scan fromPath names dir) st1

/-- Failure raised by Loader.__call__: the LoadingError message lists
exactly the queries in set_names - seen. -/
structure LoadFailure where
  unmatched : List String
deriving DecidableEq

/-- Loader.__call__(*names).  Modelled from the spec: the directory scan
primitive scan_files lives in libqtile/utils.py, outside the sources given
here; per the spec it maps each directory and query to the ordered list of
candidate paths in that directory, supporting the wildcard-extension query
form, so it enters the model as the parameter scan.  from_path abstracts
Img.from_path (a file read plus Img construction).  Directories are walked
in priority order; afterwards, if some synthesized query was never seen, a
LoadingError naming set_names - seen is raised (seen only ever receives
members of set_names, so the set inequality test of the source is exactly
the nonemptiness of that difference; no partial result escapes).  The
consult log is returned alongside for the never-consulted-again claim. -/
def Loader.call {H A : Type} (scan : String → String → List String)
    (fromPath : String → H) (l : LoaderState A) (names : List String) :
    Except LoadFailure (List (String × H)) × List (String × String) :=
  let init : ResolveState H := ⟨[], [], []⟩
  let final := l.directories.foldl (processDir scan fromPath names) init
  let missing := (synthNames names).filter (fun q => decide (q ∉ final.seen))
  if missing = [] then (.ok final.found, final.consults)
  else (.error ⟨missing⟩, final.consults)

/-- Structural invariant of reachable Img states, part one: the default
caches hold the natural size, decodes_natural counts exactly the one decode
that fills the default surface, stored pixel sizes are at least 1, and every
cached object identity is below the freshness counter. -/
def Img.InvCore (s : ImgState) : Prop :=
  (∀ surf, s.default_surface_attr = some surf →
      surf.sid < s.next_id ∧ surf.w = s.bytes.natW ∧ surf.h = s.bytes.natH) ∧
  (∀ sz, s.default_size_attr = some sz →
      sz = (s.bytes.natW, s.bytes.natH) ∧ s.default_surface_attr.isSome = true) ∧
  (s.decodes_natural = if s.default_surface_attr.isSome then 1 else 0) ∧
  (∀ w, s.width_attr = some w → 1 ≤ w) ∧
  (∀ h, s.height_attr = some h → 1 ≤ h) ∧
  (∀ surf, s.surface_attr = some surf → surf.sid < s.next_id) ∧
  (∀ p, s.pattern_attr = some p → p.pid < s.next_id)

/-- Full invariant of reachable Img states: additionally, a cached surface
has the current width and height, and a cached pattern was built from the
current width, height and theta (the no-stale-combination property). -/
def Img.Inv (s : ImgState) : Prop :=
  Img.InvCore s ∧
  (∀ surf, s.surface_attr = some surf →
      surf.w = Img.currentWidth s ∧ surf.h = Img.currentHeight s) ∧
  (∀ p, s.pattern_attr = some p →
      p.w = Img.currentWidth s ∧ p.h = Img.currentHeight s ∧ p.theta = Img.theta s)

theorem Matrix2.ext {a b : Matrix2} (hxx : a.xx = b.xx) (hyx : a.yx = b.yx)
    (hxy : a.xy = b.xy) (hyy : a.yy = b.yy) (hx0 : a.x0 = b.x0) (hy0 : a.y0 = b.y0) :
    a = b := by
  cases a; cases b; simp_all

theorem default_surface_frame (s : ImgState) :
    (Img.default_surface s).2.bytes = s.bytes ∧
    (Img.default_surface s).2.theta_attr = s.theta_attr ∧
    (Img.default_surface s).2.width_attr = s.width_attr ∧
    (Img.default_surface s).2.height_attr = s.height_attr ∧
    (Img.default_surface s).2.surface_attr = s.surface_attr ∧
    (Img.default_surface s).2.pattern_attr = s.pattern_attr ∧
    (Img.default_surface s).2.finished = s.finished ∧
    (Img.default_surface s).2.default_size_attr = s.default_size_attr ∧
    s.next_id ≤ (Img.default_surface s).2.next_id := by
  cases h : s.default_surface_attr <;>
    simp [Img.default_surface, decodeNatural, h]

theorem default_surface_keeps (s : ImgState) (surf : Surface)
    (h : s.default_surface_attr = some surf) :
    (Img.default_surface s).1 = surf ∧
    (Img.default_surface s).2 = s := by
  simp [Img.default_surface, h]

theorem default_surface_caches (s : ImgState) :
    (Img.default_surface s).2.default_surface_attr = some (Img.default_surface s).1 := by
  cases h : s.default_surface_attr <;>
    simp [Img.default_surface, decodeNatural, h]

theorem default_surface_core (s : ImgState) (hc : Img.InvCore s) :
    Img.InvCore (Img.default_surface s).2 ∧
    (Img.default_surface s).1.w = s.bytes.natW ∧
    (Img.default_surface s).1.h = s.bytes.natH := by
  obtain ⟨h1, h2, h3, h4, h5, h6, h7⟩ := hc
  cases h : s.default_surface_attr with
  | some surf =>
    simp only [Img.default_surface, h]
    exact ⟨⟨h1, h2, h3, h4, h5, h6, h7⟩, (h1 surf h).2.1, (h1 surf h).2.2⟩
  | none =>
    simp only [Img.default_surface, h, decodeNatural]
    refine ⟨⟨?_, ?_, ?_, ?_, ?_, ?_, ?_⟩, by trivial, by trivial⟩
    · intro surf hs
      simp at hs
      simp [← hs]
    · intro sz hsz
      simp at hsz
      exact absurd ((h2 sz hsz).2) (by simp [h])
    · simp [h3, h]
    · intro w hw
      exact h4 w hw
    · intro hh hhh
      exact h5 hh hhh
    · intro surf hs
      exact Nat.lt_succ_of_lt (h6 surf hs)
    · intro p hp
      exact Nat.lt_succ_of_lt (h7 p hp)

theorem default_size_keeps (s : ImgState) (sz : Int × Int)
    (h : s.default_size_attr = some sz) :
    (Img.default_size s).1 = sz ∧ (Img.default_size s).2 = s := by
  simp [Img.default_size, h]

theorem default_size_frame (s : ImgState) :
    (Img.default_size s).2.bytes = s.bytes ∧
    (Img.default_size s).2.theta_attr = s.theta_attr ∧
    (Img.default_size s).2.width_attr = s.width_attr ∧
    (Img.default_size s).2.height_attr = s.height_attr ∧
    (Img.default_size s).2.surface_attr = s.surface_attr ∧
    (Img.default_size s).2.pattern_attr = s.pattern_attr ∧
    (Img.default_size s).2.finished = s.finished ∧
    s.next_id ≤ (Img.default_size s).2.next_id ∧
    (Img.default_size s).2.default_size_attr = some (Img.default_size s).1 := by
  cases h : s.default_size_attr with
  | some sz => simp [Img.default_size, h]
  | none =>
    obtain ⟨hb, ht, hw, hh, hs, hp, hfin, _, hn⟩ := default_surface_frame s
    simp only [Img.default_size, h]
    exact ⟨hb, ht, hw, hh, hs, hp, hfin, hn, by trivial⟩

theorem default_size_keeps_ds (s : ImgState) (surf : Surface)
    (h : s.default_surface_attr = some surf) :
    (Img.default_size s).2.default_surface_attr = some surf := by
  cases hz : s.default_size_attr with
  | some sz => simp [Img.default_size, hz, h]
  | none =>
    obtain ⟨hv, hst⟩ := default_surface_keeps s surf h
    simp only [Img.default_size, hz]
    simp [hst, h]

theorem default_size_core (s : ImgState) (hc : Img.InvCore s) :
    Img.InvCore (Img.default_size s).2 ∧
    (Img.default_size s).1 = (s.bytes.natW, s.bytes.natH) ∧
    (Img.default_size s).2.default_surface_attr.isSome = true := by
  cases h : s.default_size_attr with
  | some sz =>
    obtain ⟨h1, h2, h3, h4, h5, h6, h7⟩ := hc
    simp only [Img.default_size, h]
    exact ⟨⟨h1, h2, h3, h4, h5, h6, h7⟩, (h2 sz h).1, (h2 sz h).2⟩
  | none =>
    obtain ⟨hcd, hdw, hdh⟩ := default_surface_core s hc
    obtain ⟨h1, h2, h3, h4, h5, h6, h7⟩ := hcd
    obtain ⟨hb, ht, hw, hh, hs, hp, hfin, _, hn⟩ := default_surface_frame s
    have hcache := default_surface_caches s
    simp only [Img.default_size, h]
    refine ⟨⟨?_, ?_, ?_, ?_, ?_, ?_, ?_⟩, ?_, ?_⟩
    · intro surf hsurf
      exact h1 surf hsurf
    · intro sz hsz
      simp only [Option.some.injEq] at hsz
      subst hsz
      constructor
      · simp [hb, hdw, hdh]
      · simp [hcache]
    · exact h3
    · exact h4
    · exact h5
    · exact h6
    · exact h7
    · simp [hdw, hdh]
    · simp [hcache]

theorem width_frame (s : ImgState) :
    (Img.width s).2.bytes = s.bytes ∧
    (Img.width s).2.theta_attr = s.theta_attr ∧
    (Img.width s).2.width_attr = s.width_attr ∧
    (Img.width s).2.height_attr = s.height_attr ∧
    (Img.width s).2.surface_attr = s.surface_attr ∧
    (Img.width s).2.pattern_attr = s.pattern_attr ∧
    (Img.width s).2.finished = s.finished ∧
    s.next_id ≤ (Img.width s).2.next_id := by
  cases h : s.width_attr with
  | some w => simp [Img.width, h]
  | none =>
    obtain ⟨hb, ht, hw, hh, hs, hp, hfin, hn, _⟩ := default_size_frame s
    simp only [Img.width, h]
    exact ⟨hb, ht, hw.trans h, hh, hs, hp, hfin, hn⟩

theorem height_frame (s : ImgState) :
    (Img.height s).2.bytes = s.bytes ∧
    (Img.height s).2.theta_attr = s.theta_attr ∧
    (Img.height s).2.width_attr = s.width_attr ∧
    (Img.height s).2.height_attr = s.height_attr ∧
    (Img.height s).2.surface_attr = s.surface_attr ∧
    (Img.height s).2.pattern_attr = s.pattern_attr ∧
    (Img.height s).2.finished = s.finished ∧
    s.next_id ≤ (Img.height s).2.next_id := by
  cases h : s.height_attr with
  | some v => simp [Img.height, h]
  | none =>
    obtain ⟨hb, ht, hw, hh, hs, hp, hfin, hn, _⟩ := default_size_frame s
    simp only [Img.height, h]
    exact ⟨hb, ht, hw, hh.trans h, hs, hp, hfin, hn⟩

theorem width_keeps_ds (s : ImgState) (surf : Surface)
    (h : s.default_surface_attr = some surf) :
    (Img.width s).2.default_surface_attr = some surf := by
  cases hw : s.width_attr with
  | some w => simp [Img.width, hw, h]
  | none =>
    simp only [Img.width, hw]
    exact default_size_keeps_ds s surf h

theorem height_keeps_ds (s : ImgState) (surf : Surface)
    (h : s.default_surface_attr = some surf) :
    (Img.height s).2.default_surface_attr = some surf := by
  cases hw : s.height_attr with
  | some v => simp [Img.height, hw, h]
  | none =>
    simp only [Img.height, hw]
    exact default_size_keeps_ds s surf h

theorem width_keeps_dsz (s : ImgState) (sz : Int × Int)
    (h : s.default_size_attr = some sz) :
    (Img.width s).2.default_size_attr = some sz := by
  cases hw : s.width_attr with
  | some w => simp [Img.width, hw, h]
  | none =>
    simp only [Img.width, hw]
    rw [(default_size_keeps s sz h).2]
    exact h

theorem height_keeps_dsz (s : ImgState) (sz : Int × Int)
    (h : s.default_size_attr = some sz) :
    (Img.height s).2.default_size_attr = some sz := by
  cases hw : s.height_attr with
  | some v => simp [Img.height, hw, h]
  | none =>
    simp only [Img.height, hw]
    rw [(default_size_keeps s sz h).2]
    exact h

theorem width_core (s : ImgState) (hc : Img.InvCore s) :
    Img.InvCore (Img.width s).2 ∧ (Img.width s).1 = Img.currentWidth s := by
  cases h : s.width_attr with
  | some w => simpa [Img.width, h, Img.currentWidth] using hc
  | none =>
    obtain ⟨hcd, hval, _⟩ := default_size_core s hc
    simp only [Img.width, h, Img.currentWidth, Option.getD]
    exact ⟨hcd, by simp [hval, h]⟩

theorem height_core (s : ImgState) (hc : Img.InvCore s) :
    Img.InvCore (Img.height s).2 ∧ (Img.height s).1 = Img.currentHeight s := by
  cases h : s.height_attr with
  | some v => simpa [Img.height, h, Img.currentHeight] using hc
  | none =>
    obtain ⟨hcd, hval, _⟩ := default_size_core s hc
    simp only [Img.height, h, Img.currentHeight, Option.getD]
    exact ⟨hcd, by simp [hval, h]⟩

theorem surface_frame (s : ImgState) :
    (Img.surface s).2.bytes = s.bytes ∧
    (Img.surface s).2.theta_attr = s.theta_attr ∧
    (Img.surface s).2.width_attr = s.width_attr ∧
    (Img.surface s).2.height_attr = s.height_attr ∧
    (Img.surface s).2.pattern_attr = s.pattern_attr ∧
    (Img.surface s).2.finished = s.finished ∧
    s.next_id ≤ (Img.surface s).2.next_id ∧
    (Img.surface s).2.surface_attr = some (Img.surface s).1 := by
  cases h : s.surface_attr with
  | some surf => simp [Img.surface, h]
  | none =>
    obtain ⟨hb1, ht1, hw1, hh1, hs1, hp1, hf1, hn1⟩ := width_frame s
    obtain ⟨hb2, ht2, hw2, hh2, hs2, hp2, hf2, hn2⟩ := height_frame (Img.width s).2
    simp only [Img.surface, h, decodeAt]
    refine ⟨hb2.trans hb1, ht2.trans ht1, hw2.trans hw1, hh2.trans hh1,
      hp2.trans hp1, hf2.trans hf1, ?_, by trivial⟩
    exact le_trans (le_trans hn1 hn2) (Nat.le_succ _)

theorem surface_keeps_ds (s : ImgState) (surf : Surface)
    (h : s.default_surface_attr = some surf) :
    (Img.surface s).2.default_surface_attr = some surf := by
  cases hs : s.surface_attr with
  | some sf => simp [Img.surface, hs, h]
  | none =>
    simp only [Img.surface, hs, decodeAt]
    exact height_keeps_ds (Img.width s).2 surf (width_keeps_ds s surf h)

theorem surface_keeps_dsz (s : ImgState) (sz : Int × Int)
    (h : s.default_size_attr = some sz) :
    (Img.surface s).2.default_size_attr = some sz := by
  cases hs : s.surface_attr with
  | some sf => simp [Img.surface, hs, h]
  | none =>
    simp only [Img.surface, hs, decodeAt]
    exact height_keeps_dsz (Img.width s).2 sz (width_keeps_dsz s sz h)

theorem surface_core (s : ImgState) (hc : Img.InvCore s) :
    Img.InvCore (Img.surface s).2 ∧
    (Img.surface s).2.surface_attr = some (Img.surface s).1 ∧
    (Img.surface s).1.sid < (Img.surface s).2.next_id := by
  cases h : s.surface_attr with
  | some surf =>
    obtain ⟨h1, h2, h3, h4, h5, h6, h7⟩ := hc
    simp only [Img.surface, h]
    exact ⟨⟨h1, h2, h3, h4, h5, h6, h7⟩, by trivial, h6 surf h⟩
  | none =>
    obtain ⟨hcw, _⟩ := width_core s hc
    obtain ⟨hch, _⟩ := height_core (Img.width s).2 hcw
    obtain ⟨g1, g2, g3, g4, g5, g6, g7⟩ := hch
    simp only [Img.surface, h, decodeAt]
    refine ⟨⟨?_, ?_, ?_, ?_, ?_, ?_, ?_⟩, by trivial, Nat.lt_succ_self _⟩
    · intro surf hs
      obtain ⟨hl, hw2, hh2⟩ := g1 surf hs
      exact ⟨Nat.lt_succ_of_lt hl, hw2, hh2⟩
    · intro sz hsz
      exact g2 sz hsz
    · exact g3
    · exact g4
    · exact g5
    · intro surf hs
      simp only [Option.some.injEq] at hs
      simp [← hs]
    · intro p hp
      exact Nat.lt_succ_of_lt (g7 p hp)

theorem surface_fresh (s : ImgState) (h : s.surface_attr = none) :
    s.next_id ≤ (Img.surface s).1.sid := by
  obtain ⟨_, _, _, _, _, _, _, hn1⟩ := width_frame s
  obtain ⟨_, _, _, _, _, _, _, hn2⟩ := height_frame (Img.width s).2
  simp only [Img.surface, h, decodeAt]
  exact le_trans hn1 hn2

theorem surface_val (s : ImgState) (hI : Img.Inv s) :
    (Img.surface s).1.w = Img.currentWidth s ∧
    (Img.surface s).1.h = Img.currentHeight s := by
  obtain ⟨hc, hs2, _⟩ := hI
  cases h : s.surface_attr with
  | some surf =>
    simp only [Img.surface, h]
    exact hs2 surf h
  | none =>
    obtain ⟨hcw, hvw⟩ := width_core s hc
    obtain ⟨hch, hvh⟩ := height_core (Img.width s).2 hcw
    obtain ⟨hb1, ht1, hw1, hh1, hs1, hp1, hf1, hn1⟩ := width_frame s
    simp only [Img.surface, h, decodeAt]
    refine ⟨hvw, ?_⟩
    rw [hvh]
    simp [Img.currentHeight, hh1, hb1]

theorem pattern_frame (s : ImgState) :
    (Img.pattern s).2.bytes = s.bytes ∧
    (Img.pattern s).2.theta_attr = s.theta_attr ∧
    (Img.pattern s).2.width_attr = s.width_attr ∧
    (Img.pattern s).2.height_attr = s.height_attr ∧
    (Img.pattern s).2.finished = s.finished ∧
    s.next_id ≤ (Img.pattern s).2.next_id ∧
    (Img.pattern s).2.pattern_attr = some (Img.pattern s).1 := by
  cases h : s.pattern_attr with
  | some p => simp [Img.pattern, h]
  | none =>
    obtain ⟨hb1, ht1, hw1, hh1, hp1, hf1, hn1, _⟩ := surface_frame s
    obtain ⟨hb2, ht2, hw2, hh2, _, _, hf2, hn2⟩ := width_frame (Img.surface s).2
    obtain ⟨hb3, ht3, hw3, hh3, _, _, hf3, hn3⟩ :=
      height_frame (Img.width (Img.surface s).2).2
    simp only [Img.pattern, h]
    refine ⟨(hb3.trans hb2).trans hb1, (ht3.trans ht2).trans ht1,
      (hw3.trans hw2).trans hw1, (hh3.trans hh2).trans hh1,
      (hf3.trans hf2).trans hf1, ?_, by trivial⟩
    exact le_trans (le_trans (le_trans hn1 hn2) hn3) (Nat.le_succ _)

theorem pattern_keeps_ds (s : ImgState) (surf : Surface)
    (h : s.default_surface_attr = some surf) :
    (Img.pattern s).2.default_surface_attr = some surf := by
  cases hp : s.pattern_attr with
  | some p => simp [Img.pattern, hp, h]
  | none =>
    simp only [Img.pattern, hp]
    exact height_keeps_ds _ surf
      (width_keeps_ds _ surf (surface_keeps_ds s surf h))

theorem pattern_keeps_dsz (s : ImgState) (sz : Int × Int)
    (h : s.default_size_attr = some sz) :
    (Img.pattern s).2.default_size_attr = some sz := by
  cases hp : s.pattern_attr with
  | some p => simp [Img.pattern, hp, h]
  | none =>
    simp only [Img.pattern, hp]
    exact height_keeps_dsz _ sz
      (width_keeps_dsz _ sz (surface_keeps_dsz s sz h))

theorem pattern_core (s : ImgState) (hc : Img.InvCore s) :
    Img.InvCore (Img.pattern s).2 ∧
    (Img.pattern s).2.pattern_attr = some (Img.pattern s).1 := by
  cases h : s.pattern_attr with
  | some p =>
    obtain ⟨h1, h2, h3, h4, h5, h6, h7⟩ := hc
    simp only [Img.pattern, h]
    exact ⟨⟨h1, h2, h3, h4, h5, h6, h7⟩, by trivial⟩
  | none =>
    obtain ⟨hcs, _, _⟩ := surface_core s hc
    obtain ⟨hcw, _⟩ := width_core (Img.surface s).2 hcs
    obtain ⟨hch, _⟩ := height_core (Img.width (Img.surface s).2).2 hcw
    obtain ⟨g1, g2, g3, g4, g5, g6, g7⟩ := hch
    simp only [Img.pattern, h]
    refine ⟨⟨?_, ?_, ?_, ?_, ?_, ?_, ?_⟩, by trivial⟩
    · intro surf hs
      obtain ⟨hl, hw2, hh2⟩ := g1 surf hs
      exact ⟨Nat.lt_succ_of_lt hl, hw2, hh2⟩
    · intro sz hsz
      exact g2 sz hsz
    · exact g3
    · exact g4
    · exact g5
    · intro surf hs
      exact Nat.lt_succ_of_lt (g6 surf hs)
    · intro p hp
      simp only [Option.some.injEq] at hp
      simp [← hp]

theorem pattern_fresh (s : ImgState) (h : s.pattern_attr = none) :
    s.next_id ≤ (Img.pattern s).1.pid := by
  obtain ⟨_, _, _, _, _, _, hn1, _⟩ := surface_frame s
  obtain ⟨_, _, _, _, _, _, _, hn2⟩ := width_frame (Img.surface s).2
  obtain ⟨_, _, _, _, _, _, _, hn3⟩ := height_frame (Img.width (Img.surface s).2).2
  simp only [Img.pattern, h]
  exact le_trans (le_trans hn1 hn2) hn3

theorem pattern_val (s : ImgState) (hI : Img.Inv s) :
    (Img.pattern s).1.w = Img.currentWidth s ∧
    (Img.pattern s).1.h = Img.currentHeight s ∧
    (Img.pattern s).1.theta = Img.theta s := by
  obtain ⟨hc, hs2, hp3⟩ := hI
  cases h : s.pattern_attr with
  | some p =>
    simp only [Img.pattern, h]
    exact hp3 p h
  | none =>
    obtain ⟨hcs, _, _⟩ := surface_core s hc
    obtain ⟨hcw, hvw⟩ := width_core (Img.surface s).2 hcs
    obtain ⟨hch, hvh⟩ := height_core (Img.width (Img.surface s).2).2 hcw
    obtain ⟨hb1, ht1, hw1, hh1, hp1, hf1, hn1, hsc1⟩ := surface_frame s
    obtain ⟨hb2, ht2, hw2, hh2, hs2f, hp2, hf2, hn2⟩ := width_frame (Img.surface s).2
    obtain ⟨hb3, ht3, hw3, hh3, hs3, hp3f, hf3, hn3⟩ :=
      height_frame (Img.width (Img.surface s).2).2
    simp only [Img.pattern, h]
    refine ⟨?_, ?_, ?_⟩
    · rw [hvw]
      simp [Img.currentWidth, hw1, hb1]
    · rw [hvh]
      simp [Img.currentHeight, hh2, hb2, hh1, hb1]
    · simp [Img.theta, ht3, ht2, ht1]

theorem pattern_inv (s : ImgState) (hI : Img.Inv s) :
    Img.Inv (Img.pattern s).2 := by
  obtain ⟨hpc, hpcache⟩ := pattern_core s hI.1
  obtain ⟨hvw, hvh, hvt⟩ := pattern_val s hI
  obtain ⟨hb, ht, hw, hh, hf, hn, _⟩ := pattern_frame s
  obtain ⟨hc, hs2, hp3⟩ := hI
  refine ⟨hpc, ?_, ?_⟩
  · intro surf hsurf
    cases h : s.pattern_attr with
    | some p =>
      rw [show (Img.pattern s).2 = s by simp [Img.pattern, h]] at hsurf ⊢
      exact hs2 surf hsurf
    | none =>
      obtain ⟨hsw, hsh⟩ := surface_val s ⟨hc, hs2, hp3⟩
      obtain ⟨_, _, _, _, _, _, _, hsc1⟩ := surface_frame s
      obtain ⟨_, _, _, _, hs2f, _, _, _⟩ := width_frame (Img.surface s).2
      obtain ⟨_, _, _, _, hs3, _, _, _⟩ := height_frame (Img.width (Img.surface s).2).2
      have hfinal : (Img.pattern s).2.surface_attr = some (Img.surface s).1 := by
        simp only [Img.pattern, h]
        rw [hs3, hs2f, hsc1]
      rw [hfinal] at hsurf
      simp only [Option.some.injEq] at hsurf
      subst hsurf
      constructor
      · rw [hsw]
        simp [Img.currentWidth, hw, hb]
      · rw [hsh]
        simp [Img.currentHeight, hh, hb]
  · intro p hp
    rw [hpcache] at hp
    simp only [Option.some.injEq] at hp
    subst hp
    refine ⟨?_, ?_, ?_⟩
    · rw [hvw]
      simp [Img.currentWidth, hw, hb]
    · rw [hvh]
      simp [Img.currentHeight, hh, hb]
    · rw [hvt]
      simp [Img.theta, ht]

theorem inv_of_invCore_frame (s s2 : ImgState) (hc2 : Img.InvCore s2)
    (hb : s2.bytes = s.bytes) (ht : s2.theta_attr = s.theta_attr)
    (hw : s2.width_attr = s.width_attr) (hh : s2.height_attr = s.height_attr)
    (hs : s2.surface_attr = s.surface_attr) (hp : s2.pattern_attr = s.pattern_attr)
    (hI : Img.Inv s) : Img.Inv s2 := by
  obtain ⟨_, hs2, hp3⟩ := hI
  refine ⟨hc2, ?_, ?_⟩
  · intro surf hsurf
    rw [hs] at hsurf
    simpa [Img.currentWidth, Img.currentHeight, hw, hh, hb] using hs2 surf hsurf
  · intro p hpat
    rw [hp] at hpat
    simpa [Img.currentWidth, Img.currentHeight, Img.theta, hw, hh, hb, ht]
      using hp3 p hpat

theorem default_surface_inv (s : ImgState) (hI : Img.Inv s) :
    Img.Inv (Img.default_surface s).2 := by
  obtain ⟨hb, ht, hw, hh, hs, hp, _, _, _⟩ := default_surface_frame s
  exact inv_of_invCore_frame s _ (default_surface_core s hI.1).1 hb ht hw hh hs hp hI

theorem default_size_inv (s : ImgState) (hI : Img.Inv s) :
    Img.Inv (Img.default_size s).2 := by
  obtain ⟨hb, ht, hw, hh, hs, hp, _, _, _⟩ := default_size_frame s
  exact inv_of_invCore_frame s _ (default_size_core s hI.1).1 hb ht hw hh hs hp hI

theorem width_inv (s : ImgState) (hI : Img.Inv s) :
    Img.Inv (Img.width s).2 := by
  obtain ⟨hb, ht, hw, hh, hs, hp, _, _⟩ := width_frame s
  exact inv_of_invCore_frame s _ (width_core s hI.1).1 hb ht hw hh hs hp hI

theorem height_inv (s : ImgState) (hI : Img.Inv s) :
    Img.Inv (Img.height s).2 := by
  obtain ⟨hb, ht, hw, hh, hs, hp, _, _⟩ := height_frame s
  exact inv_of_invCore_frame s _ (height_core s hI.1).1 hb ht hw hh hs hp hI

theorem surface_inv (s : ImgState) (hI : Img.Inv s) :
    Img.Inv (Img.surface s).2 := by
  obtain ⟨hcs, hcache, _⟩ := surface_core s hI.1
  obtain ⟨hb, ht, hw, hh, hp, hf, hn, _⟩ := surface_frame s
  obtain ⟨hsw, hsh⟩ := surface_val s hI
  obtain ⟨_, _, hp3⟩ := hI
  refine ⟨hcs, ?_, ?_⟩
  · intro surf hsurf
    rw [hcache] at hsurf
    simp only [Option.some.injEq] at hsurf
    subst hsurf
    constructor
    · rw [hsw]
      simp [Img.currentWidth, hw, hb]
    · rw [hsh]
      simp [Img.currentHeight, hh, hb]
  · intro p hpat
    rw [hp] at hpat
    simpa [Img.currentWidth, Img.currentHeight, Img.theta, hw, hh, hb, ht]
      using hp3 p hpat

theorem surface_build_val (s : ImgState) (hc : Img.InvCore s)
    (h : s.surface_attr = none) :
    (Img.surface s).1.w = Img.currentWidth s ∧
    (Img.surface s).1.h = Img.currentHeight s := by
  obtain ⟨hcw, hvw⟩ := width_core s hc
  obtain ⟨hch, hvh⟩ := height_core (Img.width s).2 hcw
  obtain ⟨hb1, ht1, hw1, hh1, hs1, hp1, hf1, hn1⟩ := width_frame s
  simp only [Img.surface, h, decodeAt]
  exact ⟨hvw, by rw [hvh]; simp [Img.currentHeight, hh1, hb1]⟩


theorem delSurface_core (s : ImgState) (fid : Nat) (hc : Img.InvCore s) :
    Img.InvCore (delSurface s fid) := by
  obtain ⟨g1, g2, g3, g4, g5, g6, g7⟩ := hc
  refine ⟨g1, g2, g3, g4, g5, ?_, g7⟩
  intro surf hs
  simp [delSurface] at hs

theorem reset_spec (s : ImgState) (hc : Img.InvCore s) :
    Img.InvCore (Img.reset s) ∧
    (Img.reset s).pattern_attr = none ∧
    (Img.reset s).bytes = s.bytes ∧
    (Img.reset s).theta_attr = s.theta_attr ∧
    (Img.reset s).width_attr = s.width_attr ∧
    (Img.reset s).height_attr = s.height_attr ∧
    s.next_id ≤ (Img.reset s).next_id ∧
    (Img.reset s).finished = (Img.surface s).1.sid :: s.finished ∧
    (∀ surf, (Img.reset s).surface_attr = some surf →
        surf.w = Img.currentWidth s ∧ surf.h = Img.currentHeight s ∧
        s.next_id ≤ surf.sid) := by
  obtain ⟨hcs, hscache, _⟩ := surface_core s hc
  obtain ⟨hb1, ht1, hw1, hh1, hp1, hf1, hn1, _⟩ := surface_frame s
  set t : ImgState := delSurface (Img.surface s).2 (Img.surface s).1.sid with htdef
  have hreset : Img.reset s = { (Img.pattern t).2 with pattern_attr := none } := rfl
  have hc2 : Img.InvCore t := delSurface_core _ _ hcs
  have htb : t.bytes = (Img.surface s).2.bytes := rfl
  have htt : t.theta_attr = (Img.surface s).2.theta_attr := rfl
  have htw : t.width_attr = (Img.surface s).2.width_attr := rfl
  have hth : t.height_attr = (Img.surface s).2.height_attr := rfl
  have htn : t.next_id = (Img.surface s).2.next_id := rfl
  have htp : t.pattern_attr = (Img.surface s).2.pattern_attr := rfl
  have hts : t.surface_attr = none := rfl
  have htf : t.finished = (Img.surface s).1.sid :: (Img.surface s).2.finished := rfl
  obtain ⟨hpcore, hpcache⟩ := pattern_core t hc2
  obtain ⟨pb, pt, pw, ph, pf, pn, _⟩ := pattern_frame t
  rw [hreset]
  obtain ⟨k1, k2, k3, k4, k5, k6, k7⟩ := hpcore
  refine ⟨⟨k1, k2, k3, k4, k5, k6, ?_⟩, by trivial, ?_, ?_, ?_, ?_, ?_, ?_, ?_⟩
  · intro p hp
    simp at hp
  · show (Img.pattern t).2.bytes = s.bytes
    rw [pb, htb, hb1]
  · show (Img.pattern t).2.theta_attr = s.theta_attr
    rw [pt, htt, ht1]
  · show (Img.pattern t).2.width_attr = s.width_attr
    rw [pw, htw, hw1]
  · show (Img.pattern t).2.height_attr = s.height_attr
    rw [ph, hth, hh1]
  · show s.next_id ≤ (Img.pattern t).2.next_id
    exact le_trans hn1 (le_trans (le_of_eq htn.symm) pn)
  · show (Img.pattern t).2.finished = (Img.surface s).1.sid :: s.finished
    rw [pf, htf, hf1]
  · intro surf hsurf
    have hsurf2 : (Img.pattern t).2.surface_attr = some surf := hsurf
    cases hp : t.pattern_attr with
    | some p =>
      rw [show (Img.pattern t).2 = t by simp [Img.pattern, hp]] at hsurf2
      rw [hts] at hsurf2
      simp at hsurf2
    | none =>
      obtain ⟨_, _, _, _, _, _, _, qsc⟩ := surface_frame t
      obtain ⟨_, _, _, _, qs2, _, _, _⟩ := width_frame (Img.surface t).2
      obtain ⟨_, _, _, _, qs3, _, _, _⟩ := height_frame (Img.width (Img.surface t).2).2
      have hfin : (Img.pattern t).2.surface_attr = some (Img.surface t).1 := by
        simp only [Img.pattern, hp]
        rw [qs3, qs2, qsc]
      rw [hfin] at hsurf2
      simp only [Option.some.injEq] at hsurf2
      subst hsurf2
      obtain ⟨bw, bh⟩ := surface_build_val t hc2 hts
      refine ⟨?_, ?_, ?_⟩
      · rw [bw]
        simp [Img.currentWidth, htw, hw1, htb, hb1]
      · rw [bh]
        simp [Img.currentHeight, hth, hh1, htb, hb1]
      · exact le_trans hn1 (le_trans (le_of_eq htn.symm) (surface_fresh t hts))

theorem surface_cached (s : ImgState) (surf : Surface)
    (h : s.surface_attr = some surf) :
    (Img.surface s).1 = surf ∧ (Img.surface s).2 = s := by
  simp [Img.surface, h]

theorem reset_inv (s : ImgState) (hc : Img.InvCore s) : Img.Inv (Img.reset s) := by
  obtain ⟨hcr, hpn, hb, ht, hw, hh, hn, hfin, hsurf⟩ := reset_spec s hc
  refine ⟨hcr, ?_, ?_⟩
  · intro surf hs
    obtain ⟨h1, h2, _⟩ := hsurf surf hs
    constructor
    · rw [h1]
      simp [Img.currentWidth, hw, hb]
    · rw [h2]
      simp [Img.currentHeight, hh, hb]
  · intro p hp
    rw [hpn] at hp
    simp at hp

theorem reset_keeps_ds (s : ImgState) (surf : Surface)
    (h : s.default_surface_attr = some surf) :
    (Img.reset s).default_surface_attr = some surf := by
  have h1 := surface_keeps_ds s surf h
  exact pattern_keeps_ds (delSurface (Img.surface s).2 (Img.surface s).1.sid) surf h1

theorem reset_keeps_dsz (s : ImgState) (sz : Int × Int)
    (h : s.default_size_attr = some sz) :
    (Img.reset s).default_size_attr = some sz := by
  have h1 := surface_keeps_dsz s sz h
  exact pattern_keeps_dsz (delSurface (Img.surface s).2 (Img.surface s).1.sid) sz h1

theorem reset_finishes (s : ImgState) (surf : Surface) (hc : Img.InvCore s)
    (h : s.surface_attr = some surf) :
    (Img.reset s).finished = surf.sid :: s.finished ∧
    surf.sid ∈ (Img.reset s).finished ∧
    (Img.reset s).surface_attr ≠ some surf := by
  obtain ⟨hv, hst⟩ := surface_cached s surf h
  obtain ⟨c1, c2, c3, c4, c5, c6, c7⟩ := hc
  obtain ⟨_, _, _, _, _, _, _, hfin, hsurf⟩ := reset_spec s ⟨c1, c2, c3, c4, c5, c6, c7⟩
  have hfin2 : (Img.reset s).finished = surf.sid :: s.finished := by rw [hfin, hv]
  refine ⟨hfin2, by rw [hfin2]; exact List.mem_cons_self _ _, ?_⟩
  intro habs
  obtain ⟨_, _, hge⟩ := hsurf surf habs
  have hlt : surf.sid < s.next_id := c6 surf h
  omega

theorem store_width_core (s : ImgState) (v : Rat) (hc : Img.InvCore s) :
    Img.InvCore { s with width_attr := some (max (pyRound v) 1) } := by
  obtain ⟨c1, c2, c3, c4, c5, c6, c7⟩ := hc
  refine ⟨c1, c2, c3, ?_, c5, c6, c7⟩
  intro w hw
  simp only [Option.some.injEq] at hw
  subst hw
  exact le_max_right _ _

theorem store_height_core (s : ImgState) (v : Rat) (hc : Img.InvCore s) :
    Img.InvCore { s with height_attr := some (max (pyRound v) 1) } := by
  obtain ⟨c1, c2, c3, c4, c5, c6, c7⟩ := hc
  refine ⟨c1, c2, c3, c4, ?_, c6, c7⟩
  intro w hw
  simp only [Option.some.injEq] at hw
  subst hw
  exact le_max_right _ _

theorem store_theta_core (s : ImgState) (v : Rat) (hc : Img.InvCore s) :
    Img.InvCore { s with theta_attr := some v } := by
  obtain ⟨c1, c2, c3, c4, c5, c6, c7⟩ := hc
  exact ⟨c1, c2, c3, c4, c5, c6, c7⟩

theorem set_width_spec (s : ImgState) (v : Rat) (hc : Img.InvCore s) :
    Img.Inv (Img.set_width s v) ∧
    (Img.set_width s v).width_attr = some (max (pyRound v) 1) ∧
    (Img.set_width s v).height_attr = s.height_attr ∧
    (Img.set_width s v).theta_attr = s.theta_attr ∧
    (Img.set_width s v).bytes = s.bytes ∧
    (Img.set_width s v).pattern_attr = none ∧
    s.next_id ≤ (Img.set_width s v).next_id ∧
    (∀ surf, (Img.set_width s v).surface_attr = some surf → s.next_id ≤ surf.sid) := by
  have hcu := store_width_core s v hc
  obtain ⟨hcr, hpn, hb, ht, hw, hh, hn, hfin, hsurf⟩ := reset_spec _ hcu
  simp only [Img.set_width]
  refine ⟨reset_inv _ hcu, ?_, ?_, ?_, ?_, hpn, hn, ?_⟩
  · rw [hw]
  · rw [hh]
  · rw [ht]
  · rw [hb]
  · intro surf hs
    exact (hsurf surf hs).2.2

theorem set_height_spec (s : ImgState) (v : Rat) (hc : Img.InvCore s) :
    Img.Inv (Img.set_height s v) ∧
    (Img.set_height s v).height_attr = some (max (pyRound v) 1) ∧
    (Img.set_height s v).width_attr = s.width_attr ∧
    (Img.set_height s v).theta_attr = s.theta_attr ∧
    (Img.set_height s v).bytes = s.bytes ∧
    (Img.set_height s v).pattern_attr = none ∧
    s.next_id ≤ (Img.set_height s v).next_id ∧
    (∀ surf, (Img.set_height s v).surface_attr = some surf → s.next_id ≤ surf.sid) := by
  have hcu := store_height_core s v hc
  obtain ⟨hcr, hpn, hb, ht, hw, hh, hn, hfin, hsurf⟩ := reset_spec _ hcu
  simp only [Img.set_height]
  refine ⟨reset_inv _ hcu, ?_, ?_, ?_, ?_, hpn, hn, ?_⟩
  · rw [hh]
  · rw [hw]
  · rw [ht]
  · rw [hb]
  · intro surf hs
    exact (hsurf surf hs).2.2

theorem set_theta_spec (s : ImgState) (v : Rat) (hc : Img.InvCore s) :
    Img.Inv (Img.set_theta s v) ∧
    (Img.set_theta s v).theta_attr = some v ∧
    (Img.set_theta s v).width_attr = s.width_attr ∧
    (Img.set_theta s v).height_attr = s.height_attr ∧
    (Img.set_theta s v).bytes = s.bytes ∧
    (Img.set_theta s v).pattern_attr = none ∧
    s.next_id ≤ (Img.set_theta s v).next_id ∧
    (∀ surf, (Img.set_theta s v).surface_attr = some surf → s.next_id ≤ surf.sid) := by
  have hcu := store_theta_core s v hc
  obtain ⟨hcr, hpn, hb, ht, hw, hh, hn, hfin, hsurf⟩ := reset_spec _ hcu
  simp only [Img.set_theta]
  refine ⟨reset_inv _ hcu, ?_, ?_, ?_, ?_, hpn, hn, ?_⟩
  · rw [ht]
  · rw [hw]
  · rw [hh]
  · rw [hb]
  · intro surf hs
    exact (hsurf surf hs).2.2

theorem set_width_keeps_ds (s : ImgState) (v : Rat) (surf : Surface)
    (h : s.default_surface_attr = some surf) :
    (Img.set_width s v).default_surface_attr = some surf :=
  reset_keeps_ds { s with width_attr := some (max (pyRound v) 1) } surf h

theorem set_height_keeps_ds (s : ImgState) (v : Rat) (surf : Surface)
    (h : s.default_surface_attr = some surf) :
    (Img.set_height s v).default_surface_attr = some surf :=
  reset_keeps_ds { s with height_attr := some (max (pyRound v) 1) } surf h

theorem set_theta_keeps_ds (s : ImgState) (v : Rat) (surf : Surface)
    (h : s.default_surface_attr = some surf) :
    (Img.set_theta s v).default_surface_attr = some surf :=
  reset_keeps_ds { s with theta_attr := some v } surf h

theorem set_width_keeps_dsz (s : ImgState) (v : Rat) (sz : Int × Int)
    (h : s.default_size_attr = some sz) :
    (Img.set_width s v).default_size_attr = some sz :=
  reset_keeps_dsz { s with width_attr := some (max (pyRound v) 1) } sz h

theorem set_height_keeps_dsz (s : ImgState) (v : Rat) (sz : Int × Int)
    (h : s.default_size_attr = some sz) :
    (Img.set_height s v).default_size_attr = some sz :=
  reset_keeps_dsz { s with height_attr := some (max (pyRound v) 1) } sz h

theorem set_theta_keeps_dsz (s : ImgState) (v : Rat) (sz : Int × Int)
    (h : s.default_size_attr = some sz) :
    (Img.set_theta s v).default_size_attr = some sz :=
  reset_keeps_dsz { s with theta_attr := some v } sz h

theorem scale_inv (s : ImgState) (wf hf : Option Rat) (lock : Bool)
    (hI : Img.Inv s) : Img.Inv (Img.scale s wf hf lock).2 := by
  unfold Img.scale
  cases hT : (truthy wf || truthy hf) with
  | false => simpa [hT] using hI
  | true =>
    simp only [hT, if_true]
    cases hm : (if lock then Img.scale_lock wf hf (Img.default_size s).1
        else Except.ok (Img.scale_free wf hf (Img.default_size s).1)) with
    | error e =>
      simp only [hm]
      exact default_size_inv s hI
    | ok wh =>
      simp only [hm]
      have h1 := default_size_inv s hI
      have h2 := (set_width_spec (Img.default_size s).2 wh.1 h1.1).1
      exact (set_height_spec _ wh.2 h2.1).1

theorem resize_inv (s : ImgState) (w h : Option Rat)
    (hI : Img.Inv s) : Img.Inv (Img.resize s w h).2 := by
  unfold Img.resize
  cases hT : (truthy w && truthy h) with
  | true =>
    simp only [hT, if_true]
    exact scale_inv _ _ _ _ (default_size_inv s hI)
  | false =>
    simp only [hT, Bool.false_eq_true, if_false]
    cases hT2 : (truthy w || truthy h) with
    | true =>
      simp only [hT2, if_true]
      exact scale_inv _ _ _ _ (default_size_inv s hI)
    | false =>
      simp only [hT2, Bool.false_eq_true, if_false]
      exact default_size_inv s hI

theorem scale_keeps_ds (s : ImgState) (wf hf : Option Rat) (lock : Bool)
    (surf : Surface) (h : s.default_surface_attr = some surf) :
    (Img.scale s wf hf lock).2.default_surface_attr = some surf := by
  unfold Img.scale
  cases hT : (truthy wf || truthy hf) with
  | false => simpa [hT] using h
  | true =>
    simp only [hT, if_true]
    have hd := default_size_keeps_ds s surf h
    cases hm : (if lock then Img.scale_lock wf hf (Img.default_size s).1
        else Except.ok (Img.scale_free wf hf (Img.default_size s).1)) with
    | error e =>
      simp only [hm]
      exact hd
    | ok wh =>
      simp only [hm]
      exact set_height_keeps_ds _ _ surf (set_width_keeps_ds _ _ surf hd)

theorem scale_keeps_dsz (s : ImgState) (wf hf : Option Rat) (lock : Bool)
    (sz : Int × Int) (h : s.default_size_attr = some sz) :
    (Img.scale s wf hf lock).2.default_size_attr = some sz := by
  unfold Img.scale
  cases hT : (truthy wf || truthy hf) with
  | false => simpa [hT] using h
  | true =>
    simp only [hT, if_true]
    have hd : (Img.default_size s).2.default_size_attr = some sz := by
      rw [(default_size_keeps s sz h).2]
      exact h
    cases hm : (if lock then Img.scale_lock wf hf (Img.default_size s).1
        else Except.ok (Img.scale_free wf hf (Img.default_size s).1)) with
    | error e =>
      simp only [hm]
      exact hd
    | ok wh =>
      simp only [hm]
      exact set_height_keeps_dsz _ _ sz (set_width_keeps_dsz _ _ sz hd)

theorem resize_keeps_ds (s : ImgState) (w h : Option Rat)
    (surf : Surface) (hds : s.default_surface_attr = some surf) :
    (Img.resize s w h).2.default_surface_attr = some surf := by
  unfold Img.resize
  have hd := default_size_keeps_ds s surf hds
  cases hT : (truthy w && truthy h) with
  | true =>
    simp only [hT, if_true]
    exact scale_keeps_ds _ _ _ _ surf hd
  | false =>
    simp only [hT, Bool.false_eq_true, if_false]
    cases hT2 : (truthy w || truthy h) with
    | true =>
      simp only [hT2, if_true]
      exact scale_keeps_ds _ _ _ _ surf hd
    | false =>
      simp only [hT2, Bool.false_eq_true, if_false]
      exact hd

theorem resize_keeps_dsz (s : ImgState) (w h : Option Rat)
    (sz : Int × Int) (hds : s.default_size_attr = some sz) :
    (Img.resize s w h).2.default_size_attr = some sz := by
  unfold Img.resize
  have hd : (Img.default_size s).2.default_size_attr = some sz := by
    rw [(default_size_keeps s sz hds).2]
    exact hds
  cases hT : (truthy w && truthy h) with
  | true =>
    simp only [hT, if_true]
    exact scale_keeps_dsz _ _ _ _ sz hd
  | false =>
    simp only [hT, Bool.false_eq_true, if_false]
    cases hT2 : (truthy w || truthy h) with
    | true =>
      simp only [hT2, if_true]
      exact scale_keeps_dsz _ _ _ _ sz hd
    | false =>
      simp only [hT2, Bool.false_eq_true, if_false]
      exact hd

theorem step_inv (s : ImgState) (op : ImgOp) (hI : Img.Inv s) :
    Img.Inv (stepOp s op) := by
  cases op with
  | set_width v => exact (set_width_spec s v hI.1).1
  | set_height v => exact (set_height_spec s v hI.1).1
  | set_theta v => exact (set_theta_spec s v hI.1).1
  | read_surface => exact surface_inv s hI
  | read_pattern => exact pattern_inv s hI
  | read_default_surface => exact default_surface_inv s hI
  | read_default_size => exact default_size_inv s hI
  | read_width => exact width_inv s hI
  | read_height => exact height_inv s hI
  | do_resize w h => exact resize_inv s w h hI
  | do_scale wf hf lock => exact scale_inv s wf hf lock hI

theorem step_keeps_ds (s : ImgState) (op : ImgOp) (surf : Surface)
    (h : s.default_surface_attr = some surf) :
    (stepOp s op).default_surface_attr = some surf := by
  cases op with
  | set_width v => exact set_width_keeps_ds s v surf h
  | set_height v => exact set_height_keeps_ds s v surf h
  | set_theta v => exact set_theta_keeps_ds s v surf h
  | read_surface => exact surface_keeps_ds s surf h
  | read_pattern => exact pattern_keeps_ds s surf h
  | read_default_surface =>
    show (Img.default_surface s).2.default_surface_attr = some surf
    rw [(default_surface_keeps s surf h).2]
    exact h
  | read_default_size => exact default_size_keeps_ds s surf h
  | read_width => exact width_keeps_ds s surf h
  | read_height => exact height_keeps_ds s surf h
  | do_resize w hh => exact resize_keeps_ds s w hh surf h
  | do_scale wf hf lock => exact scale_keeps_ds s wf hf lock surf h

theorem step_keeps_dsz (s : ImgState) (op : ImgOp) (sz : Int × Int)
    (h : s.default_size_attr = some sz) :
    (stepOp s op).default_size_attr = some sz := by
  cases op with
  | set_width v => exact set_width_keeps_dsz s v sz h
  | set_height v => exact set_height_keeps_dsz s v sz h
  | set_theta v => exact set_theta_keeps_dsz s v sz h
  | read_surface => exact surface_keeps_dsz s sz h
  | read_pattern => exact pattern_keeps_dsz s sz h
  | read_default_surface =>
    show (Img.default_surface s).2.default_size_attr = some sz
    rw [(default_surface_frame s).2.2.2.2.2.2.2.1]
    exact h
  | read_default_size =>
    show (Img.default_size s).2.default_size_attr = some sz
    rw [(default_size_keeps s sz h).2]
    exact h
  | read_width => exact width_keeps_dsz s sz h
  | read_height => exact height_keeps_dsz s sz h
  | do_resize w hh => exact resize_keeps_dsz s w hh sz h
  | do_scale wf hf lock => exact scale_keeps_dsz s wf hf lock sz h

theorem init_inv (b : BytesImg) : Img.Inv (Img.init b) := by
  refine ⟨⟨?_, ?_, ?_, ?_, ?_, ?_, ?_⟩, ?_, ?_⟩ <;>
    simp [Img.init]

theorem run_inv (s : ImgState) (ops : List ImgOp) (hI : Img.Inv s) :
    Img.Inv (runOps s ops) := by
  induction ops generalizing s with
  | nil => simpa [runOps] using hI
  | cons op rest ih =>
    show Img.Inv (runOps (stepOp s op) rest)
    exact ih _ (step_inv s op hI)

theorem run_keeps_ds (s : ImgState) (ops : List ImgOp) (surf : Surface)
    (h : s.default_surface_attr = some surf) :
    (runOps s ops).default_surface_attr = some surf := by
  induction ops generalizing s with
  | nil => simpa [runOps] using h
  | cons op rest ih =>
    show (runOps (stepOp s op) rest).default_surface_attr = some surf
    exact ih _ (step_keeps_ds s op surf h)

theorem run_keeps_dsz (s : ImgState) (ops : List ImgOp) (sz : Int × Int)
    (h : s.default_size_attr = some sz) :
    (runOps s ops).default_size_attr = some sz := by
  induction ops generalizing s with
  | nil => simpa [runOps] using h
  | cons op rest ih =>
    show (runOps (stepOp s op) rest).default_size_attr = some sz
    exact ih _ (step_keeps_dsz s op sz h)

theorem pyRound_close (q : Rat) : |q - (pyRound q : Rat)| ≤ 1/2 := by
  have h0 : (0:Rat) ≤ q - ⌊q⌋ := by
    have := Int.floor_le q
    linarith
  have h1 : q - ⌊q⌋ < 1 := by
    have := Int.lt_floor_add_one q
    linarith
  simp only [pyRound]
  split_ifs with ha hb hcc
  · rw [abs_of_nonneg h0]
    linarith
  · rw [abs_of_nonpos (by push_cast; linarith)]
    push_cast
    linarith
  · rw [abs_of_nonneg h0]
    linarith
  · rw [abs_of_nonpos (by push_cast; linarith)]
    push_cast
    linarith

theorem pyRound_nearest (q : Rat) (m : Int) :
    |q - (pyRound q : Rat)| ≤ |q - (m : Rat)| := by
  rcases eq_or_ne m (pyRound q) with rfl | hne
  · exact le_refl _
  · have hz : pyRound q - m ≠ 0 := sub_ne_zero.mpr (Ne.symm hne)
    have h1 : (1:Rat) ≤ |(pyRound q : Rat) - (m : Rat)| := by
      have := Int.one_le_abs hz
      have hcast : ((|pyRound q - m| : Int) : Rat) = |(pyRound q : Rat) - (m : Rat)| := by
        push_cast
        ring_nf
      calc (1:Rat) = ((1:Int):Rat) := by norm_num
        _ ≤ ((|pyRound q - m| : Int) : Rat) := by exact_mod_cast this
        _ = _ := hcast
    have hc := pyRound_close q
    have htri : |(pyRound q : Rat) - (m : Rat)| ≤
        |(pyRound q : Rat) - q| + |q - (m : Rat)| := abs_sub_le _ _ _
    have h2 : |(pyRound q : Rat) - q| = |q - (pyRound q : Rat)| := abs_sub_comm _ _
    linarith

theorem Matrix2.comp_apply (a b : Matrix2) (p : Real × Real) :
    (Matrix2.comp a b).apply p = a.apply (b.apply p) := by
  simp only [Matrix2.comp, Matrix2.apply, Prod.mk.injEq]
  constructor <;> ring

theorem gcp_matrix_rot_eq (sw sh : Real) (tw th : Option Real) (θ : Real)
    (hθ : 1.0e-6 < |θ|) :
    get_cairo_pattern_matrix sw sh tw th θ =
    Matrix2.multiply
      (rotAboutM (sw * trDim sw tw * 0.5) (sh * trDim sh th * 0.5)
        (Real.pi / 180 * θ))
      (Matrix2.scaling (trDim sw tw) (trDim sh th)) := by
  unfold get_cairo_pattern_matrix
  rw [if_pos hθ]
  unfold Matrix2.multiply rotAboutM Matrix2.translateOp Matrix2.rotateOp
    Matrix2.scaleOp
  apply Matrix2.ext <;>
    simp [Matrix2.comp, Matrix2.identity, Matrix2.translation, Matrix2.rotation,
      Matrix2.scaling]

theorem pi_div_180_mul_180 : Real.pi / 180 * 180 = Real.pi :=
  div_mul_cancel₀ Real.pi (by norm_num)

theorem gcp_matrix_nat_180_apply (sw sh d : Real) :
    (get_cairo_pattern_matrix sw sh (some sw) (some sh) 180).apply
      (sw/2 + d, sh/2) = (sw/2 - d, sh/2) := by
  have hθ : (1.0e-6:Real) < |(180:Real)| := by
    rw [abs_of_pos (by norm_num : (0:Real) < 180)]
    norm_num
  have htr : trDim sw (some sw) = 1 := by simp [trDim]
  have htr2 : trDim sh (some sh) = 1 := by simp [trDim]
  have h05 : (0.5:Real) = 1/2 := by norm_num
  rw [gcp_matrix_rot_eq sw sh (some sw) (some sh) 180 hθ, pi_div_180_mul_180,
    htr, htr2]
  unfold Matrix2.multiply rotAboutM
  simp only [Matrix2.comp_apply, Matrix2.comp, Matrix2.apply,
    Matrix2.translation, Matrix2.rotation, Matrix2.scaling, Real.cos_pi,
    Real.sin_pi, h05, Prod.mk.injEq]
  constructor <;> ring

theorem gcp_scaled_180_value :
    (get_cairo_pattern_matrix 2 2 (some 1) (some 1) 180).apply (3/4, 1/2)
      = (13/2, 7) := by
  have hθ : (1.0e-6:Real) < |(180:Real)| := by
    rw [abs_of_pos (by norm_num : (0:Real) < 180)]
    norm_num
  have htr : trDim 2 (some 1) = 2 := by
    rw [show trDim 2 (some 1) = if (1:Real) ≠ 2 then 2 / 1 else 1 from rfl]
    rw [if_pos (by norm_num : (1:Real) ≠ 2)]
    norm_num
  have h05 : (0.5:Real) = 1/2 := by norm_num
  rw [gcp_matrix_rot_eq 2 2 (some 1) (some 1) 180 hθ, pi_div_180_mul_180, htr]
  unfold Matrix2.multiply rotAboutM
  simp only [Matrix2.comp_apply, Matrix2.comp, Matrix2.apply,
    Matrix2.translation, Matrix2.rotation, Matrix2.scaling, Real.cos_pi,
    Real.sin_pi, h05, Prod.mk.injEq]
  constructor <;> norm_num

theorem upsert_mem_self {H : Type} (d : List (String × H)) (k : String) (v : H) :
    (k, v) ∈ upsert d k v := by
  unfold upsert
  split_ifs with h
  · rw [List.any_eq_true] at h
    obtain ⟨kv, hmem, hk⟩ := h
    rw [List.mem_map]
    refine ⟨kv, hmem, ?_⟩
    rw [if_pos hk]
  · simp

theorem upsert_mem_preserve {H : Type} (d : List (String × H)) (k k2 : String)
    (v v2 : H) (hmem : (k, v) ∈ d) (hne : k ≠ k2) :
    (k, v) ∈ upsert d k2 v2 := by
  unfold upsert
  split_ifs with h
  · rw [List.mem_map]
    refine ⟨(k, v), hmem, ?_⟩
    rw [if_neg (by simpa using hne)]
  · exact List.mem_append_left _ hmem

theorem inner_seen_mono {H : Type} (scan : String → String → List String)
    (fromPath : String → H) (names : List String) (dir : String)
    (qs : List String) (st : ResolveState H) (q : String) (h : q ∈ st.seen) :
    q ∈ (qs.foldl (processQuery scan fromPath names dir) st).seen := by
  induction qs generalizing st with
  | nil => simpa using h
  | cons q2 rest ih =>
    rw [List.foldl_cons]
    refine ih _ ?_
    unfold processQuery
    cases hsq : scan dir q2 with
    | nil => exact h
    | cons p ps => simpa using Or.inl h

theorem inner_consults {H : Type} (scan : String → String → List String)
    (fromPath : String → H) (names : List String) (dir : String)
    (qs : List String) (st : ResolveState H) :
    (qs.foldl (processQuery scan fromPath names dir) st).consults = st.consults := by
  induction qs generalizing st with
  | nil => rfl
  | cons q2 rest ih =>
    rw [List.foldl_cons]
    rw [ih]
    unfold processQuery
    cases hsq : scan dir q2 with
    | nil => rfl
    | cons p ps => rfl

theorem inner_not_seen {H : Type} (scan : String → String → List String)
    (fromPath : String → H) (names : List String) (dir : String)
    (qs : List String) (st : ResolveState H) (q : String)
    (h : q ∉ st.seen) (hq : q ∉ qs ∨ scan dir q = []) :
    q ∉ (qs.foldl (processQuery scan fromPath names dir) st).seen := by
  induction qs generalizing st with
  | nil => simpa using h
  | cons q2 rest ih =>
    rw [List.foldl_cons]
    have hq2 : q ∉ rest ∨ scan dir q = [] := by
      cases hq with
      | inl hl => exact Or.inl (fun hc => hl (List.mem_cons_of_mem _ hc))
      | inr hr => exact Or.inr hr
    refine ih _ ?_ hq2
    unfold processQuery
    cases hsq : scan dir q2 with
    | nil => exact h
    | cons p ps =>
      simp only [List.mem_append, List.mem_singleton]
      rintro (hc | hc)
      · exact h hc
      · subst hc
        cases hq with
        | inl hl => exact hl (List.mem_cons_self _ _)
        | inr hr => rw [hr] at hsq; cases hsq

theorem inner_seen_sub {H : Type} (scan : String → String → List String)
    (fromPath : String → H) (names : List String) (dir : String)
    (qs : List String) (st : ResolveState H) (q : String)
    (h : q ∈ (qs.foldl (processQuery scan fromPath names dir) st).seen) :
    q ∈ st.seen ∨ q ∈ qs := by
  induction qs generalizing st with
  | nil => exact Or.inl (by simpa using h)
  | cons q2 rest ih =>
    rw [List.foldl_cons] at h
    cases ih _ h with
    | inr hr => exact Or.inr (List.mem_cons_of_mem _ hr)
    | inl hl =>
      unfold processQuery at hl
      cases hsq : scan dir q2 with
      | nil =>
        rw [hsq] at hl
        exact Or.inl hl
      | cons p ps =>
        rw [hsq] at hl
        simp only [List.mem_append, List.mem_singleton] at hl
        cases hl with
        | inl hll => exact Or.inl hll
        | inr hlr => exact Or.inr (hlr ▸ List.mem_cons_self _ _)

theorem inner_found_pres {H : Type} (scan : String → String → List String)
    (fromPath : String → H) (names : List String) (dir : String)
    (qs : List String) (st : ResolveState H) (k : String) (v : H)
    (hmem : (k, v) ∈ st.found) (hkeys : ∀ q2 ∈ qs, resKey names q2 ≠ k) :
    (k, v) ∈ (qs.foldl (processQuery scan fromPath names dir) st).found := by
  induction qs generalizing st with
  | nil => simpa using hmem
  | cons q2 rest ih =>
    rw [List.foldl_cons]
    refine ih _ ?_ (fun q3 h3 => hkeys q3 (List.mem_cons_of_mem _ h3))
    unfold processQuery
    cases hsq : scan dir q2 with
    | nil => exact hmem
    | cons p ps =>
      exact upsert_mem_preserve _ _ _ _ _ hmem
        (fun hc => hkeys q2 (List.mem_cons_self _ _) (hc ▸ rfl))

theorem inner_resolve {H : Type} (scan : String → String → List String)
    (fromPath : String → H) (names : List String) (dir : String)
    (qs : List String) (st : ResolveState H) (q : String) (p : String)
    (ps : List String) (hq : q ∈ qs) (hsq : scan dir q = p :: ps)
    (hkeys : ∀ q2 ∈ qs, q2 ≠ q → resKey names q2 ≠ resKey names q) :
    (resKey names q, fromPath p) ∈
      (qs.foldl (processQuery scan fromPath names dir) st).found ∧
    q ∈ (qs.foldl (processQuery scan fromPath names dir) st).seen := by
  induction qs generalizing st with
  | nil => cases hq
  | cons q2 rest ih =>
    rw [List.foldl_cons]
    by_cases hqq : q2 = q
    · subst hqq
      have hstep : (resKey names q2, fromPath p) ∈
          (processQuery scan fromPath names dir st q2).found ∧
          q2 ∈ (processQuery scan fromPath names dir st q2).seen := by
        unfold processQuery
        rw [hsq]
        exact ⟨upsert_mem_self _ _ _, by simp⟩
      by_cases hrest : q2 ∈ rest
      · exact ih _ hrest
          (fun q3 h3 h3q => hkeys q3 (List.mem_cons_of_mem _ h3) h3q)
      · refine ⟨?_, ?_⟩
        · refine inner_found_pres _ _ _ _ _ _ _ _ hstep.1 ?_
          intro q3 h3
          by_cases h3q : q3 = q2
          · subst h3q
            exact absurd h3 hrest
          · exact hkeys q3 (List.mem_cons_of_mem _ h3) h3q
        · exact inner_seen_mono _ _ _ _ _ _ _ hstep.2
    · have hq2 : q ∈ rest := by
        cases hq with
        | head => exact absurd rfl hqq
        | tail _ h => exact h
      exact ih _ hq2
        (fun q3 h3 h3q => hkeys q3 (List.mem_cons_of_mem _ h3) h3q)

theorem dir_seen_mono {H : Type} (scan : String → String → List String)
    (fromPath : String → H) (names : List String) (st : ResolveState H)
    (dir : String) (q : String) (h : q ∈ st.seen) :
    q ∈ (processDir scan fromPath names st dir).seen := by
  unfold processDir
  exact inner_seen_mono _ _ _ _ _ _ _ h

theorem dir_not_seen {H : Type} (scan : String → String → List String)
    (fromPath : String → H) (names : List String) (st : ResolveState H)
    (dir : String) (q : String) (h : q ∉ st.seen)
    (hq : scan dir q = [] ∨ q ∉ synthNames names) :
    q ∉ (processDir scan fromPath names st dir).seen := by
  unfold processDir
  refine inner_not_seen _ _ _ _ _ _ _ h ?_
  cases hq with
  | inl hl => exact Or.inr hl
  | inr hr =>
    refine Or.inl (fun hc => hr ?_)
    exact (List.mem_filter.mp hc).1

theorem dir_resolve {H : Type} (scan : String → String → List String)
    (fromPath : String → H) (names : List String) (st : ResolveState H)
    (dir : String) (q p : String) (ps : List String)
    (hq_syn : q ∈ synthNames names) (hnot : q ∉ st.seen)
    (hsq : scan dir q = p :: ps)
    (hkeys : ∀ a ∈ synthNames names, ∀ b ∈ synthNames names,
      a ≠ b → resKey names a ≠ resKey names b) :
    (resKey names q, fromPath p) ∈ (processDir scan fromPath names st dir).found ∧
    q ∈ (processDir scan fromPath names st dir).seen := by
  unfold processDir
  have hqin : q ∈ (synthNames names).filter (fun q2 => decide (q2 ∉ st.seen)) := by
    rw [List.mem_filter]
    exact ⟨hq_syn, by simpa using hnot⟩
  refine inner_resolve _ _ _ _ _ _ _ _ _ hqin hsq ?_
  intro q2 h2 h2q
  exact hkeys q2 (List.mem_filter.mp h2).1 q hq_syn h2q

theorem dir_found_pres {H : Type} (scan : String → String → List String)
    (fromPath : String → H) (names : List String) (st : ResolveState H)
    (dir : String) (q k : String) (v : H)
    (hmem : (k, v) ∈ st.found) (hseen : q ∈ st.seen)
    (hqk : resKey names q = k) (hq_syn : q ∈ synthNames names)
    (hkeys : ∀ a ∈ synthNames names, ∀ b ∈ synthNames names,
      a ≠ b → resKey names a ≠ resKey names b) :
    (k, v) ∈ (processDir scan fromPath names st dir).found := by
  unfold processDir
  refine inner_found_pres _ _ _ _ _ _ _ _ hmem ?_
  intro q2 h2
  obtain ⟨h2syn, h2ns⟩ := List.mem_filter.mp h2
  have h2q : q2 ≠ q := by
    intro hc
    rw [hc] at h2ns
    simp only [decide_eq_true_eq] at h2ns
    exact h2ns hseen
  rw [← hqk]
  exact hkeys q2 h2syn q hq_syn h2q

theorem dir_consult_sub {H : Type} (scan : String → String → List String)
    (fromPath : String → H) (names : List String) (st : ResolveState H)
    (dir : String) (pr : String × String)
    (h : pr ∈ (processDir scan fromPath names st dir).consults) :
    pr ∈ st.consults ∨ (pr.1 = dir ∧ pr.2 ∈ synthNames names ∧ pr.2 ∉ st.seen) := by
  unfold processDir at h
  rw [inner_consults] at h
  simp only [List.mem_append] at h
  cases h with
  | inl hl => exact Or.inl hl
  | inr hr =>
    rw [List.mem_map] at hr
    obtain ⟨q2, h2, hpr⟩ := hr
    obtain ⟨h2syn, h2ns⟩ := List.mem_filter.mp h2
    subst hpr
    exact Or.inr ⟨rfl, h2syn, by simpa using h2ns⟩

theorem dirs_seen_mono {H : Type} (scan : String → String → List String)
    (fromPath : String → H) (names : List String) (ds : List String)
    (st : ResolveState H) (q : String) (h : q ∈ st.seen) :
    q ∈ (ds.foldl (processDir scan fromPath names) st).seen := by
  induction ds generalizing st with
  | nil => simpa using h
  | cons dir rest ih =>
    rw [List.foldl_cons]
    exact ih _ (dir_seen_mono _ _ _ _ _ _ h)

theorem dirs_never {H : Type} (scan : String → String → List String)
    (fromPath : String → H) (names : List String) (ds : List String)
    (st : ResolveState H) (q : String) (h : q ∉ st.seen)
    (hall : ∀ d2 ∈ ds, scan d2 q = []) :
    q ∉ (ds.foldl (processDir scan fromPath names) st).seen := by
  induction ds generalizing st with
  | nil => simpa using h
  | cons dir rest ih =>
    rw [List.foldl_cons]
    refine ih _ ?_ (fun d2 h2 => hall d2 (List.mem_cons_of_mem _ h2))
    exact dir_not_seen _ _ _ _ _ _ h (Or.inl (hall dir (List.mem_cons_self _ _)))

theorem dirs_found_post {H : Type} (scan : String → String → List String)
    (fromPath : String → H) (names : List String) (ds : List String)
    (st : ResolveState H) (q k : String) (v : H)
    (hmem : (k, v) ∈ st.found) (hseen : q ∈ st.seen)
    (hqk : resKey names q = k) (hq_syn : q ∈ synthNames names)
    (hkeys : ∀ a ∈ synthNames names, ∀ b ∈ synthNames names,
      a ≠ b → resKey names a ≠ resKey names b) :
    (k, v) ∈ (ds.foldl (processDir scan fromPath names) st).found := by
  induction ds generalizing st with
  | nil => simpa using hmem
  | cons dir rest ih =>
    rw [List.foldl_cons]
    exact ih _ (dir_found_pres _ _ _ _ _ _ _ _ hmem hseen hqk hq_syn hkeys)
      (dir_seen_mono _ _ _ _ _ _ hseen)

theorem dirs_noconsult {H : Type} (scan : String → String → List String)
    (fromPath : String → H) (names : List String) (ds : List String)
    (st : ResolveState H) (q d2 : String) (hseen : q ∈ st.seen)
    (hnc : (d2, q) ∉ st.consults) :
    (d2, q) ∉ (ds.foldl (processDir scan fromPath names) st).consults := by
  induction ds generalizing st with
  | nil => simpa using hnc
  | cons dir rest ih =>
    rw [List.foldl_cons]
    refine ih _ (dir_seen_mono _ _ _ _ _ _ hseen) ?_
    intro hc
    cases dir_consult_sub _ _ _ _ _ _ hc with
    | inl hl => exact hnc hl
    | inr hr => exact hr.2.2 hseen

theorem dirs_consult_tags {H : Type} (scan : String → String → List String)
    (fromPath : String → H) (names : List String) (ds : List String)
    (st : ResolveState H) (pr : String × String)
    (h : pr ∈ (ds.foldl (processDir scan fromPath names) st).consults) :
    pr ∈ st.consults ∨ pr.1 ∈ ds := by
  induction ds generalizing st with
  | nil => exact Or.inl (by simpa using h)
  | cons dir rest ih =>
    rw [List.foldl_cons] at h
    cases ih _ h with
    | inr hr => exact Or.inr (List.mem_cons_of_mem _ hr)
    | inl hl =>
      cases dir_consult_sub _ _ _ _ _ _ hl with
      | inl hll => exact Or.inl hll
      | inr hlr => exact Or.inr (hlr.1 ▸ List.mem_cons_self _ _)

/-- C1, counterexample: on a handle with natural size 8 x 6 whose surface has
been read (and is therefore cached), writing theta = 90 does NOT leave the
cached surface in place: the surface read immediately after the theta-only
write is a different instance from the one read before, and the surface
cache slot itself changes, because _reset always forces and then deletes the
surface property.  This falsifies the claim that a theta write invalidates
only the pattern and that surface identity survives. -/
theorem c1_counterexample :
    (Img.surface (Img.set_theta (Img.surface (Img.init ⟨8, 6⟩)).2 90)).1 ≠
      (Img.surface (Img.init ⟨8, 6⟩)).1 ∧
    (Img.set_theta (Img.surface (Img.init ⟨8, 6⟩)).2 90).surface_attr ≠
      (Img.surface (Img.init ⟨8, 6⟩)).2.surface_attr := by
  decide

/-- C1, amended: writing theta stores float(value) and invalidates BOTH
caches, not the pattern only: on any reachable state with a cached surface,
a theta write stores the value, leaves the pattern cache empty, finishes and
discards the previously cached surface (its identity lands in the finished
list and the cache no longer holds it), and the surface read after the
write is never the pre-write instance. -/
theorem c1_theta_write_behavior (s : ImgState) (surf : Surface) (v : Rat)
    (hI : Img.Inv s) (hs : s.surface_attr = some surf) :
    (Img.set_theta s v).theta_attr = some v ∧
    (Img.set_theta s v).pattern_attr = none ∧
    surf.sid ∈ (Img.set_theta s v).finished ∧
    (Img.set_theta s v).surface_attr ≠ some surf ∧
    (Img.surface (Img.set_theta s v)).1 ≠ surf := by
  obtain ⟨hInv2, hth, hw, hh, hb, hpn, hn, hsid⟩ := set_theta_spec s v hI.1
  have hcu := store_theta_core s v hI.1
  have hsu : ({ s with theta_attr := some v } : ImgState).surface_attr
      = some surf := hs
  obtain ⟨hfin, hmem, hne⟩ := reset_finishes _ surf hcu hsu
  have hlt : surf.sid < s.next_id := hI.1.2.2.2.2.2.1 surf hs
  refine ⟨hth, hpn, hmem, hne, ?_⟩
  cases h2 : (Img.set_theta s v).surface_attr with
  | none =>
    have hge := surface_fresh (Img.set_theta s v) h2
    intro heq
    have : s.next_id ≤ surf.sid := le_trans hn (heq ▸ hge)
    omega
  | some surf2 =>
    rw [(surface_cached _ surf2 h2).1]
    intro heq
    subst heq
    exact absurd (hsid surf2 h2) (by omega)

/-- Witness for c1_theta_write_behavior at a concrete reachable state. -/
theorem c1_theta_write_behavior_witness :
    (Img.set_theta (runOps (Img.init ⟨8, 6⟩) [ImgOp.read_surface]) 90).theta_attr
      = some 90 ∧
    (Img.set_theta (runOps (Img.init ⟨8, 6⟩) [ImgOp.read_surface]) 90).pattern_attr
      = none ∧
    (1 : Nat) ∈ (Img.set_theta (runOps (Img.init ⟨8, 6⟩)
      [ImgOp.read_surface]) 90).finished ∧
    (Img.set_theta (runOps (Img.init ⟨8, 6⟩) [ImgOp.read_surface]) 90).surface_attr
      ≠ some ⟨1, 8, 6⟩ ∧
    (Img.surface (Img.set_theta (runOps (Img.init ⟨8, 6⟩)
      [ImgOp.read_surface]) 90)).1 ≠ ⟨1, 8, 6⟩ :=
  c1_theta_write_behavior (runOps (Img.init ⟨8, 6⟩) [ImgOp.read_surface])
    ⟨1, 8, 6⟩ 90 (run_inv _ _ (init_inv _)) (by decide)

/-- C3: a pattern read always returns a pattern built from the handle's
current width, height and theta, never a stale combination; writing width or
height discards both previously cached objects (the old surface is finished,
the pattern cache is cleared), and the next pattern read yields a fresh
pattern instance, again built from the now-current state.  Stated over every
state reachable by any sequence of public operations. -/
theorem c3_pattern_never_stale (b : BytesImg) (ops : List ImgOp) (s : ImgState)
    (hs : s = runOps (Img.init b) ops) (v : Rat) :
    ((Img.pattern s).1.w = (Img.width s).1 ∧
     (Img.pattern s).1.h = (Img.height s).1 ∧
     (Img.pattern s).1.theta = Img.theta s) ∧
    (∀ p0, s.pattern_attr = some p0 →
      (Img.set_width s v).pattern_attr = none ∧
      (∀ surf0, s.surface_attr = some surf0 →
        (Img.set_width s v).surface_attr ≠ some surf0 ∧
        surf0.sid ∈ (Img.set_width s v).finished) ∧
      (Img.pattern (Img.set_width s v)).1.pid ≠ p0.pid ∧
      (Img.pattern (Img.set_width s v)).1.w = (Img.width (Img.set_width s v)).1 ∧
      (Img.pattern (Img.set_width s v)).1.h = (Img.height (Img.set_width s v)).1 ∧
      (Img.pattern (Img.set_width s v)).1.theta = Img.theta (Img.set_width s v)) ∧
    (∀ p0, s.pattern_attr = some p0 →
      (Img.set_height s v).pattern_attr = none ∧
      (Img.pattern (Img.set_height s v)).1.pid ≠ p0.pid) := by
  subst hs
  set s := runOps (Img.init b) ops with hsdef
  have hI : Img.Inv s := run_inv _ _ (init_inv b)
  have hcurrent : ∀ s2 : ImgState, Img.Inv s2 →
      (Img.pattern s2).1.w = (Img.width s2).1 ∧
      (Img.pattern s2).1.h = (Img.height s2).1 ∧
      (Img.pattern s2).1.theta = Img.theta s2 := by
    intro s2 hI2
    obtain ⟨hvw, hvh, hvt⟩ := pattern_val s2 hI2
    refine ⟨?_, ?_, hvt⟩
    · rw [hvw, (width_core s2 hI2.1).2]
    · rw [hvh, (height_core s2 hI2.1).2]
  refine ⟨hcurrent s hI, ?_, ?_⟩
  · intro p0 hp0
    obtain ⟨hInv2, hwa, hha, hta, hba, hpn, hn, hsid⟩ := set_width_spec s v hI.1
    have hplt : p0.pid < s.next_id := hI.1.2.2.2.2.2.2 p0 hp0
    refine ⟨hpn, ?_, ?_, ?_, ?_, ?_⟩
    · intro surf0 hsurf0
      have hcu := store_width_core s v hI.1
      have hsu : ({ s with width_attr := some (max (pyRound v) 1) } :
          ImgState).surface_attr = some surf0 := hsurf0
      obtain ⟨hfin, hmem, hne⟩ := reset_finishes _ surf0 hcu hsu
      exact ⟨hne, hmem⟩
    · have hfr := pattern_fresh (Img.set_width s v) hpn
      intro heq
      rw [heq] at hfr
      have := le_trans hn hfr
      omega
    · exact (hcurrent _ hInv2).1
    · exact (hcurrent _ hInv2).2.1
    · exact (hcurrent _ hInv2).2.2
  · intro p0 hp0
    obtain ⟨hInv2, hha, hwa, hta, hba, hpn, hn, hsid⟩ := set_height_spec s v hI.1
    have hplt : p0.pid < s.next_id := hI.1.2.2.2.2.2.2 p0 hp0
    refine ⟨hpn, ?_⟩
    have hfr := pattern_fresh (Img.set_height s v) hpn
    intro heq
    rw [heq] at hfr
    have := le_trans hn hfr
    omega

/-- Witness for c3_pattern_never_stale at a concrete reachable state with a
cached pattern. -/
theorem c3_pattern_never_stale_witness :
    (Img.set_width (runOps (Img.init ⟨8, 6⟩) [ImgOp.read_pattern]) 5).pattern_attr
      = none ∧
    (Img.pattern (Img.set_width (runOps (Img.init ⟨8, 6⟩)
      [ImgOp.read_pattern]) 5)).1.pid ≠ (2 : Nat) ∧
    (Img.pattern (Img.set_width (runOps (Img.init ⟨8, 6⟩) [ImgOp.read_pattern]) 5)).1.w
      = (Img.width (Img.set_width (runOps (Img.init ⟨8, 6⟩) [ImgOp.read_pattern]) 5)).1 := by
  have h := c3_pattern_never_stale ⟨8, 6⟩ [ImgOp.read_pattern]
    (runOps (Img.init ⟨8, 6⟩) [ImgOp.read_pattern]) rfl 5
  obtain ⟨_, h2, _⟩ := h
  obtain ⟨ha, _, hc, hd, _, _⟩ := h2 ⟨2, 1, 8, 6, 0⟩ (by decide)
  exact ⟨ha, hc, hd⟩

/-- C7: writing width or height stores a nearest integer to the input
(Python round, which rounds halves to even, always lands within 1/2, hence
on a nearest integer) clamped below at 1, so stored width and height are
integers at least 1 on every state reachable by any operation sequence; when
the natural size is positive the width and height property reads are at
least 1 as well. -/
theorem c7_size_rounds_and_clamps (b : BytesImg) (ops : List ImgOp)
    (s : ImgState) (hs : s = runOps (Img.init b) ops) (v : Rat) :
    (∃ n : Int, (∀ m : Int, |v - (n : Rat)| ≤ |v - (m : Rat)|) ∧
      (Img.set_width s v).width_attr = some (max n 1) ∧
      (Img.set_height s v).height_attr = some (max n 1) ∧
      1 ≤ max n 1) ∧
    (∀ w, s.width_attr = some w → 1 ≤ w) ∧
    (∀ h, s.height_attr = some h → 1 ≤ h) ∧
    (1 ≤ s.bytes.natW → 1 ≤ (Img.width s).1) ∧
    (1 ≤ s.bytes.natH → 1 ≤ (Img.height s).1) := by
  subst hs
  set s := runOps (Img.init b) ops with hsdef
  have hI : Img.Inv s := run_inv _ _ (init_inv b)
  refine ⟨⟨pyRound v, ?_, ?_, ?_, le_max_right _ _⟩, ?_, ?_, ?_, ?_⟩
  · intro m
    exact pyRound_nearest v m
  · exact (set_width_spec s v hI.1).2.1
  · exact (set_height_spec s v hI.1).2.1
  · exact hI.1.2.2.2.1
  · exact hI.1.2.2.2.2.1
  · intro hnat
    rw [(width_core s hI.1).2]
    unfold Img.currentWidth
    cases h : s.width_attr with
    | some w => simpa using hI.1.2.2.2.1 w h
    | none => simpa using hnat
  · intro hnat
    rw [(height_core s hI.1).2]
    unfold Img.currentHeight
    cases h : s.height_attr with
    | some hh => simpa using hI.1.2.2.2.2.1 hh h
    | none => simpa using hnat

/-- Witness for c7_size_rounds_and_clamps at the initial state of an 8 x 6
image and the input 7/2 (rounded half to even, clamped). -/
theorem c7_size_rounds_and_clamps_witness :
    (∃ n : Int, (∀ m : Int, |(7/2 : Rat) - (n : Rat)| ≤ |(7/2 : Rat) - (m : Rat)|) ∧
      (Img.set_width (runOps (Img.init ⟨8, 6⟩) []) (7/2)).width_attr = some (max n 1) ∧
      (Img.set_height (runOps (Img.init ⟨8, 6⟩) []) (7/2)).height_attr = some (max n 1) ∧
      1 ≤ max n 1) ∧
    (∀ w, (runOps (Img.init ⟨8, 6⟩) []).width_attr = some w → 1 ≤ w) ∧
    (∀ h, (runOps (Img.init ⟨8, 6⟩) []).height_attr = some h → 1 ≤ h) ∧
    (1 ≤ (runOps (Img.init ⟨8, 6⟩) []).bytes.natW →
      1 ≤ (Img.width (runOps (Img.init ⟨8, 6⟩) [])).1) ∧
    (1 ≤ (runOps (Img.init ⟨8, 6⟩) []).bytes.natH →
      1 ≤ (Img.height (runOps (Img.init ⟨8, 6⟩) [])).1) :=
  c7_size_rounds_and_clamps ⟨8, 6⟩ [] (runOps (Img.init ⟨8, 6⟩) []) rfl (7/2)

theorem runOps_append (s : ImgState) (l1 l2 : List ImgOp) :
    runOps s (l1 ++ l2) = runOps (runOps s l1) l2 :=
  List.foldl_append _ _ _ _

/-- C9: the natural size comes from exactly one decode call without a target
size.  On every reachable state the count of such decode calls is at most
one; any sequence that reads default_size leaves the count at exactly one no
matter what follows; and once memoized, the default size and default surface
survive every further operation unchanged (in particular width, height and
theta writes), with no further natural-size decode. -/
theorem c9_natural_size_single_decode (b : BytesImg) (ops more : List ImgOp)
    (s : ImgState) (hs : s = runOps (Img.init b) ops) :
    s.decodes_natural ≤ 1 ∧
    (∀ ops2, (runOps (Img.init b)
      (ops ++ ImgOp.read_default_size :: ops2)).decodes_natural = 1) ∧
    (∀ sz, s.default_size_attr = some sz →
      (runOps s more).default_size_attr = some sz ∧
      (runOps s more).decodes_natural = s.decodes_natural) ∧
    (∀ surf, s.default_surface_attr = some surf →
      (runOps s more).default_surface_attr = some surf) := by
  subst hs
  set s := runOps (Img.init b) ops with hsdef
  have hI : Img.Inv s := run_inv _ _ (init_inv b)
  have hcount : ∀ s2 : ImgState, Img.Inv s2 → s2.decodes_natural =
      if s2.default_surface_attr.isSome then 1 else 0 := fun s2 hI2 =>
    hI2.1.2.2.1
  refine ⟨?_, ?_, ?_, ?_⟩
  · rw [hcount s hI]
    split <;> omega
  · intro ops2
    rw [runOps_append]
    show (runOps (runOps (Img.init b) ops) (ImgOp.read_default_size :: ops2)).decodes_natural = 1
    rw [show runOps (runOps (Img.init b) ops) (ImgOp.read_default_size :: ops2) =
      runOps (stepOp s ImgOp.read_default_size) ops2 from rfl]
    have hI2 : Img.Inv (stepOp s ImgOp.read_default_size) := step_inv s _ hI
    have hsome : (stepOp s ImgOp.read_default_size).default_surface_attr.isSome
        = true := (default_size_core s hI.1).2.2
    obtain ⟨surf, hsurf⟩ := Option.isSome_iff_exists.mp hsome
    have hkeep := run_keeps_ds _ ops2 surf hsurf
    have hI3 : Img.Inv (runOps (stepOp s ImgOp.read_default_size) ops2) :=
      run_inv _ _ hI2
    rw [hcount _ hI3, hkeep]
    rfl
  · intro sz hsz
    have hkeep := run_keeps_dsz s more sz hsz
    refine ⟨hkeep, ?_⟩
    have hds : s.default_surface_attr.isSome = true :=
      (hI.1.2.1 sz hsz).2
    obtain ⟨surf, hsurf⟩ := Option.isSome_iff_exists.mp hds
    have hkeep2 := run_keeps_ds s more surf hsurf
    have hI3 : Img.Inv (runOps s more) := run_inv _ _ hI
    rw [hcount _ hI3, hcount s hI, hkeep2, hsurf]
  · intro surf hsurf
    exact run_keeps_ds s more surf hsurf

/-- Witness for c9_natural_size_single_decode: a default_size read followed
by width and theta writes and a pattern read still counts one natural
decode, and the memoized natural size survives. -/
theorem c9_natural_size_single_decode_witness :
    (runOps (Img.init ⟨8, 6⟩) [ImgOp.read_default_size]).decodes_natural ≤ 1 ∧
    (runOps (Img.init ⟨8, 6⟩) ([ImgOp.read_default_size] ++
      ImgOp.read_default_size :: [ImgOp.set_width 3, ImgOp.set_theta 90,
        ImgOp.read_pattern])).decodes_natural = 1 ∧
    (runOps (runOps (Img.init ⟨8, 6⟩) [ImgOp.read_default_size])
      [ImgOp.set_width 3, ImgOp.set_theta 90,
        ImgOp.read_pattern]).default_size_attr = some (8, 6) := by
  have h := c9_natural_size_single_decode ⟨8, 6⟩ [ImgOp.read_default_size]
    [ImgOp.set_width 3, ImgOp.set_theta 90, ImgOp.read_pattern]
    (runOps (Img.init ⟨8, 6⟩) [ImgOp.read_default_size]) rfl
  obtain ⟨h1, h2, h3, _⟩ := h
  exact ⟨h1, h2 [ImgOp.set_width 3, ImgOp.set_theta 90, ImgOp.read_pattern],
    (h3 (8, 6) (by decide)).1⟩

/-- C8: argument errors of resize and scale: resize with neither width nor
height raises the missing-argument ValueError, scale with neither factor
raises the missing-factor ValueError, and scale with lock_aspect_ratio and
both (nonzero) factors raises the ambiguous-combination ValueError. -/
theorem c8_argument_errors (s : ImgState) (wf hf : Rat) (lock : Bool)
    (hwf : wf ≠ 0) (hhf : hf ≠ 0) :
    (Img.resize s none none).1 = Except.error ImgError.missingResizeArg ∧
    (Img.scale s none none lock).1 = Except.error ImgError.missingScaleFactor ∧
    (Img.scale s (some wf) (some hf) true).1 =
      Except.error ImgError.lockedBothFactors := by
  refine ⟨?_, ?_, ?_⟩
  · simp [Img.resize, truthy]
  · simp [Img.scale, truthy]
  · have hwt : truthy (some wf) = true := by simp [truthy, hwf]
    have hht : truthy (some hf) = true := by simp [truthy, hhf]
    simp [Img.scale, Img.scale_lock, hwt, hht]

/-- Witness for c8_argument_errors on a fresh 8 x 6 handle with factors 2
and 3. -/
theorem c8_argument_errors_witness :
    (Img.resize (Img.init ⟨8, 6⟩) none none).1 =
      Except.error ImgError.missingResizeArg ∧
    (Img.scale (Img.init ⟨8, 6⟩) none none false).1 =
      Except.error ImgError.missingScaleFactor ∧
    (Img.scale (Img.init ⟨8, 6⟩) (some 2) (some 3) true).1 =
      Except.error ImgError.lockedBothFactors :=
  c8_argument_errors (Img.init ⟨8, 6⟩) 2 3 false (by norm_num) (by norm_num)

theorem scale_lock_zero_wf (hf : Option Rat) (sz : Int × Int) :
    Img.scale_lock (some 0) hf sz = Img.scale_lock none hf sz := by
  unfold Img.scale_lock
  have h0 : truthy (some 0) = false := by simp [truthy]
  rw [h0]
  rfl

theorem scale_zero_wf (s : ImgState) (hf : Option Rat) :
    Img.scale s (some 0) hf true = Img.scale s none hf true := by
  unfold Img.scale
  have h0 : truthy (some 0) = false := by simp [truthy]
  rw [h0]
  show (if truthy hf = true then _ else _) = (if (truthy none || truthy hf) = true then _ else _)
  rw [show (truthy none || truthy hf) = truthy hf from rfl]
  cases hT : truthy hf with
  | false => simp [hT]
  | true =>
    simp only [hT, if_true]
    rw [scale_lock_zero_wf]

/-- C10: zero-valued public arguments are treated as absent because the code
tests truthiness, not None-ness: scale called with only zero factors raises
the missing-argument ValueError even though factors were supplied, and
resize(0, h) behaves exactly like resize(None, h), an aspect-locked
height-only resize, rather than an independent two-dimension resize. -/
theorem c10_zero_arguments_absent (s : ImgState) (h : Rat) (lock : Bool)
    (hh : h ≠ 0) :
    (Img.scale s (some 0) none lock).1 =
      Except.error ImgError.missingScaleFactor ∧
    (Img.scale s (some 0) (some 0) lock).1 =
      Except.error ImgError.missingScaleFactor ∧
    Img.resize s (some 0) (some h) = Img.resize s none (some h) := by
  refine ⟨?_, ?_, ?_⟩
  · simp [Img.scale, truthy]
  · simp [Img.scale, truthy]
  · unfold Img.resize
    have h0 : truthy (some 0) = false := by simp [truthy]
    have hn : truthy none = false := rfl
    have hzdiv : (0 : Rat) / ((Img.default_size s).1.1 : Rat) = 0 := zero_div _
    simp only [Option.map_some', Option.map_none', h0, hn, Bool.false_and,
      Bool.false_or, Bool.false_eq_true, if_false, hzdiv]
    cases hT : truthy (some h) with
    | false =>
      have : h = 0 := by simpa [truthy] using hT
      exact absurd this hh
    | true =>
      simp only [hT, if_true]
      exact scale_zero_wf _ _

/-- Witness for c10_zero_arguments_absent on a fresh 8 x 6 handle with
height 3. -/
theorem c10_zero_arguments_absent_witness :
    (Img.scale (Img.init ⟨8, 6⟩) (some 0) none false).1 =
      Except.error ImgError.missingScaleFactor ∧
    (Img.scale (Img.init ⟨8, 6⟩) (some 0) (some 0) false).1 =
      Except.error ImgError.missingScaleFactor ∧
    Img.resize (Img.init ⟨8, 6⟩) (some 0) (some 3) =
      Img.resize (Img.init ⟨8, 6⟩) none (some 3) :=
  c10_zero_arguments_absent (Img.init ⟨8, 6⟩) 3 false (by norm_num)

theorem rotAboutM_fixed (cx cy t : Real) :
    (rotAboutM cx cy t).apply (cx, cy) = (cx, cy) := by
  unfold rotAboutM
  simp only [Matrix2.comp_apply, Matrix2.comp, Matrix2.apply,
    Matrix2.translation, Matrix2.rotation, Prod.mk.injEq]
  constructor <;> ring

/-- C2, counterexample: for a surface of natural size (2, 2) drawn at target
size (1, 1) with theta = 180, the matrix of get_cairo_pattern does not
rotate about the resized image's center (1/2, 1/2): the device point at
offset +1/4 from that center is mapped to (13/2, 7), whereas a rotation
about the center composed with the same device-to-pattern scale would send
it to the scale image of the mirrored point (1/4, 1/2), namely (1/2, 1).
The x coordinates differ by 6, far beyond any floating tolerance, because
the code pivots at surf_width * (surf_width / width) * 0.5 = 2, not at the
center 1/2. -/
theorem c2_counterexample :
    (get_cairo_pattern_matrix 2 2 (some 1) (some 1) 180).apply
        (1/2 + 1/4, 1/2) ≠
      (Matrix2.scaling 2 2).apply (1/2 - 1/4, 1/2) ∧
    ((get_cairo_pattern_matrix 2 2 (some 1) (some 1) 180).apply
        (1/2 + 1/4, 1/2)).1 -
      ((Matrix2.scaling 2 2).apply (1/2 - 1/4, 1/2)).1 = 6 := by
  have hpt : ((1:Real)/2 + 1/4, (1:Real)/2) = ((3:Real)/4, (1:Real)/2) := by
    norm_num
  have hsc : (Matrix2.scaling 2 2).apply (1/2 - 1/4, 1/2) =
      ((1:Real)/2, (1:Real)) := by
    simp only [Matrix2.scaling, Matrix2.apply, Prod.mk.injEq]
    norm_num
  rw [hpt, gcp_scaled_180_value, hsc]
  constructor
  · intro hc
    rw [Prod.mk.injEq] at hc
    norm_num at hc
  · norm_num

/-- C2, amended: for every surface size, explicit target size and angle
above the epsilon threshold, the pattern matrix is the cairo multiply of a
rotation about the point (sw*tr_w*0.5, sh*tr_h*0.5) with the scale matrix
diag(tr_w, tr_h), where tr is the device-to-pattern ratio of
get_cairo_pattern; that pivot is a fixed point of the rotation factor, and
it coincides with the resized image's center only when the target size
equals the surface size, in which case a 180-degree rotation does map the
device point at offset (+d, 0) from the center to offset (-d, 0). -/
theorem c2_rotation_pivot (sw sh tw th θ d : Real) (hθ : 1.0e-6 < |θ|) :
    (get_cairo_pattern_matrix sw sh (some tw) (some th) θ =
      Matrix2.multiply
        (rotAboutM (sw * trDim sw (some tw) * 0.5) (sh * trDim sh (some th) * 0.5)
          (Real.pi / 180 * θ))
        (Matrix2.scaling (trDim sw (some tw)) (trDim sh (some th)))) ∧
    (rotAboutM (sw * trDim sw (some tw) * 0.5) (sh * trDim sh (some th) * 0.5)
        (Real.pi / 180 * θ)).apply
      (sw * trDim sw (some tw) * 0.5, sh * trDim sh (some th) * 0.5) =
      (sw * trDim sw (some tw) * 0.5, sh * trDim sh (some th) * 0.5) ∧
    (get_cairo_pattern_matrix sw sh (some sw) (some sh) 180).apply
      (sw/2 + d, sh/2) = (sw/2 - d, sh/2) :=
  ⟨gcp_matrix_rot_eq sw sh (some tw) (some th) θ hθ,
   rotAboutM_fixed _ _ _,
   gcp_matrix_nat_180_apply sw sh d⟩

/-- Witness for c2_rotation_pivot at surface size (4, 4), target (5, 6),
theta = 180 and offset d = 1. -/
theorem c2_rotation_pivot_witness :
    (get_cairo_pattern_matrix 4 4 (some 5) (some 6) 180 =
      Matrix2.multiply
        (rotAboutM (4 * trDim 4 (some 5) * 0.5) (4 * trDim 4 (some 6) * 0.5)
          (Real.pi / 180 * 180))
        (Matrix2.scaling (trDim 4 (some 5)) (trDim 4 (some 6)))) ∧
    (rotAboutM (4 * trDim 4 (some 5) * 0.5) (4 * trDim 4 (some 6) * 0.5)
        (Real.pi / 180 * 180)).apply
      (4 * trDim 4 (some 5) * 0.5, 4 * trDim 4 (some 6) * 0.5) =
      (4 * trDim 4 (some 5) * 0.5, 4 * trDim 4 (some 6) * 0.5) ∧
    (get_cairo_pattern_matrix 4 4 (some 4) (some 4) 180).apply
      (4/2 + 1, 4/2) = (4/2 - 1, 4/2) :=
  c2_rotation_pivot 4 4 5 6 180 1
    (by rw [abs_of_pos (by norm_num : (0:Real) < 180)]; norm_num)

theorem find_map_replace {A : Type} (a : List (String × A)) (k : String) (v : A)
    (h : a.any (fun kv => kv.1 == k) = true) :
    (a.map (fun kv => if kv.1 == k then (k, v) else kv)).find?
      (fun kv => kv.1 == k) = some (k, v) := by
  induction a with
  | nil => simp at h
  | cons hd tl ih =>
    rw [List.map_cons]
    by_cases hk : hd.1 = k
    · rw [if_pos (by simpa using hk)]
      rw [List.find?_cons_of_pos _ (by simp)]
    · rw [if_neg (by simpa using hk)]
      rw [List.find?_cons_of_neg _ (by simpa using hk)]
      refine ih ?_
      rw [List.any_cons] at h
      simpa [hk] using h

theorem find_append_single {A : Type} (a : List (String × A)) (k : String) (v : A)
    (h : a.any (fun kv => kv.1 == k) = false) :
    (a ++ [(k, v)]).find? (fun kv => kv.1 == k) = some (k, v) := by
  induction a with
  | nil => simp
  | cons hd tl ih =>
    rw [List.cons_append]
    rw [List.any_cons] at h
    have hk : (hd.1 == k) = false := by
      cases hc : (hd.1 == k) with
      | false => rfl
      | true => rw [hc] at h; simp at h
    rw [List.find?_cons_of_neg _ (by simp [hk])]
    refine ih ?_
    cases hc : tl.any (fun kv => kv.1 == k) with
    | false => rfl
    | true => rw [hc] at h; simp at h

theorem getattrA_setattrA_self {A : Type} (a : List (String × A)) (k : String)
    (v : A) : getattrA (setattrA a k v) k = some v := by
  unfold getattrA setattrA
  split_ifs with h
  · rw [find_map_replace a k v h]
    rfl
  · rw [find_append_single a k v (Bool.eq_false_iff.mpr h)]
    rfl

theorem getattrA_setattrA_other {A : Type} (a : List (String × A))
    (k k2 : String) (v2 : A) (hne : k ≠ k2) :
    getattrA (setattrA a k2 v2) k = getattrA a k := by
  have hk2k : ((k2 : String) == k) = false := by
    rw [beq_eq_false_iff_ne]
    exact fun hc => hne hc.symm
  unfold getattrA setattrA
  split_ifs with h
  · clear h
    congr 1
    induction a with
    | nil => rfl
    | cons hd tl ih =>
      rw [List.map_cons]
      by_cases hk : hd.1 = k2
      · rw [if_pos (by simpa using hk)]
        rw [List.find?_cons_of_neg _ (by simp [hk2k])]
        rw [List.find?_cons_of_neg _ (by simp [hk, hk2k])]
        exact ih
      · rw [if_neg (by simpa using hk)]
        by_cases hk3 : hd.1 = k
        · rw [List.find?_cons_of_pos _ (by simpa using hk3),
            List.find?_cons_of_pos _ (by simpa using hk3)]
        · rw [List.find?_cons_of_neg _ (by simpa using hk3),
            List.find?_cons_of_neg _ (by simpa using hk3)]
          exact ih
  · clear h
    congr 1
    induction a with
    | nil =>
      show List.find? _ ((k2, v2) :: []) = List.find? _ []
      rw [List.find?_cons_of_neg _ (by simp [hk2k])]
    | cons hd tl ih =>
      rw [List.cons_append]
      by_cases hk3 : hd.1 = k
      · rw [List.find?_cons_of_pos _ (by simpa using hk3),
          List.find?_cons_of_pos _ (by simpa using hk3)]
      · rw [List.find?_cons_of_neg _ (by simpa using hk3),
          List.find?_cons_of_neg _ (by simpa using hk3)]
        exact ih

theorem getattrA_foldl_isSome {A : Type} (kwargs : List (String × A))
    (k : String) (v : A) :
    ∀ a, ((k, v) ∈ kwargs ∨ (getattrA a k).isSome = true) →
    (getattrA (kwargs.foldl (fun a2 kv => setattrA a2 kv.1 kv.2) a) k).isSome
      = true := by
  induction kwargs with
  | nil =>
    intro a h
    cases h with
    | inl hl => cases hl
    | inr hr => simpa using hr
  | cons hd rest ih =>
    intro a h
    rw [List.foldl_cons]
    refine ih _ ?_
    cases h with
    | inl hl =>
      cases hl with
      | head =>
        refine Or.inr ?_
        rw [getattrA_setattrA_self]
        rfl
      | tail _ hm => exact Or.inl hm
    | inr hr =>
      refine Or.inr ?_
      by_cases hk : hd.1 = k
      · rw [← hk, getattrA_setattrA_self]
        rfl
      · rw [getattrA_setattrA_other _ _ _ _ (fun hc => hk hc.symm)]
        exact hr

/-- C6, counterexample: the Loader constructor does not reject unrecognized
keyword options; Loader("dir", unrecognized_option=7) succeeds and the
option is silently stored as an instance attribute readable via getattr. -/
theorem c6_counterexample :
    (Loader.init (A := Nat) ["dir"] [("unrecognized_option", 7)]).attrs =
      [("unrecognized_option", 7)] ∧
    getattrA (Loader.init (A := Nat) ["dir"]
      [("unrecognized_option", 7)]).attrs "unrecognized_option" = some 7 ∧
    (Loader.init (A := Nat) ["dir"]
      [("unrecognized_option", 7)]).directories = ["dir"] := by
  decide

/-- C6, amended: the Loader constructor accepts every keyword option and
stores each one as an instance attribute via setattr (no closed set of
recognized options, no rejection): construction always succeeds, the
directory list is kept in order, and every supplied option is afterwards
present on the instance. -/
theorem c6_kwargs_silently_stored {A : Type} (directories : List String)
    (kwargs : List (String × A)) (k : String) (v : A)
    (hmem : (k, v) ∈ kwargs) :
    (Loader.init directories kwargs).directories = directories ∧
    (getattrA (Loader.init directories kwargs).attrs k).isSome = true := by
  refine ⟨rfl, ?_⟩
  exact getattrA_foldl_isSome kwargs k v [] (Or.inl hmem)

/-- Witness for c6_kwargs_silently_stored at a concrete option list. -/
theorem c6_kwargs_silently_stored_witness :
    (Loader.init (A := Nat) ["a", "b"]
      [("masked", 0), ("whatever", 3), ("masked", 1)]).directories = ["a", "b"] ∧
    (getattrA (Loader.init (A := Nat) ["a", "b"]
      [("masked", 0), ("whatever", 3), ("masked", 1)]).attrs "whatever").isSome
      = true :=
  c6_kwargs_silently_stored ["a", "b"]
    [("masked", 0), ("whatever", 3), ("masked", 1)] "whatever" 3
    (by decide)

/-- C5: when some synthesized query matches no file in any directory, the
Loader call fails with a LoadingError that names that query in wildcard
form, and no mapping is returned.  The scan primitive is the spec-modelled
scan_files boundary. -/
theorem c5_unmatched_error {H A : Type} (scan : String → String → List String)
    (fromPath : String → H) (l : LoaderState A) (names : List String)
    (q : String) (hq_syn : q ∈ synthNames names)
    (hall : ∀ d2 ∈ l.directories, scan d2 q = []) :
    ∃ E, (Loader.call scan fromPath l names).1 = Except.error E ∧
      q ∈ E.unmatched := by
  unfold Loader.call
  have hnot : q ∉ (l.directories.foldl (processDir scan fromPath names)
      ⟨[], [], []⟩).seen :=
    dirs_never scan fromPath names l.directories ⟨[], [], []⟩ q
      (by simp) hall
  have hmiss : q ∈ (synthNames names).filter (fun q2 => decide (q2 ∉
      (l.directories.foldl (processDir scan fromPath names) ⟨[], [], []⟩).seen)) := by
    rw [List.mem_filter]
    exact ⟨hq_syn, by simpa using hnot⟩
  have hne : (synthNames names).filter (fun q2 => decide (q2 ∉
      (l.directories.foldl (processDir scan fromPath names) ⟨[], [], []⟩).seen)) ≠ [] :=
    List.ne_nil_of_mem hmiss
  rw [if_neg hne]
  exact ⟨_, rfl, hmiss⟩

/-- Witness for c5_unmatched_error: one directory with no files at all, a
request for "missing", and the failure names "missing.*". -/
theorem c5_unmatched_error_witness :
    ∃ E, (Loader.call (H := String) (fun _ _ => []) (fun p => p)
      (⟨[], ["A"]⟩ : LoaderState Nat) ["missing"]).1 = Except.error E ∧
      "missing.*" ∈ E.unmatched :=
  c5_unmatched_error (fun _ _ => []) (fun p => p) ⟨[], ["A"]⟩ ["missing"]
    "missing.*" (by decide) (by intro d2 hd2; rfl)

/-- C4: first-match-wins across the whole directory list.  If the first
directory (in priority order) whose scan yields a candidate for a
synthesized query is dir, then the batch result (when the whole batch
succeeds) maps the query's result key to from_path of the first candidate
of dir in scan order, and no directory after dir is ever handed that query
again (the spec-modelled scan_files boundary is never consulted for it).
The result-key injectivity hypothesis rules out degenerate name batches
whose distinct queries collide on one result key; distinct directories
match the spec's ordered search-path list. -/
theorem c4_first_match_wins {H A : Type} (scan : String → String → List String)
    (fromPath : String → H) (l : LoaderState A) (names : List String)
    (q p dir : String) (ps : List String) (pre post : List String)
    (hdirs : l.directories = pre ++ dir :: post)
    (hq_syn : q ∈ synthNames names)
    (hpre : ∀ d2 ∈ pre, scan d2 q = [])
    (hdir : scan dir q = p :: ps)
    (hkeys : ∀ a ∈ synthNames names, ∀ b ∈ synthNames names,
      a ≠ b → resKey names a ≠ resKey names b)
    (hnodup : l.directories.Nodup) :
    (∀ m, (Loader.call scan fromPath l names).1 = Except.ok m →
      (resKey names q, fromPath p) ∈ m) ∧
    (∀ d2 ∈ post, (d2, q) ∉ (Loader.call scan fromPath l names).2) := by
  rw [hdirs] at hnodup
  obtain ⟨hnd1, hnd2, hdisj⟩ := List.nodup_append.mp hnodup
  obtain ⟨hdir_post, hnd3⟩ := List.nodup_cons.mp hnd2
  simp only [Loader.call]
  rw [hdirs, List.foldl_append, List.foldl_cons]
  set st0 : ResolveState H := ⟨[], [], []⟩ with hst0
  set mid0 := pre.foldl (processDir scan fromPath names) st0 with hmid0
  set mid := processDir scan fromPath names mid0 dir with hmid
  set fin := post.foldl (processDir scan fromPath names) mid with hfin
  have hq_pre : q ∉ mid0.seen :=
    dirs_never scan fromPath names pre st0 q (List.not_mem_nil q) hpre
  have hq_res := dir_resolve scan fromPath names mid0 dir q p ps hq_syn
    hq_pre hdir hkeys
  have hmem_fin : (resKey names q, fromPath p) ∈ fin.found :=
    dirs_found_post scan fromPath names post mid q _ _ hq_res.1 hq_res.2
      rfl hq_syn hkeys
  constructor
  · intro m hm
    by_cases hcnd : ((synthNames names).filter
        (fun q2 => decide (q2 ∉ fin.seen))) = []
    · rw [if_pos hcnd] at hm
      simp only [Except.ok.injEq] at hm
      rw [← hm]
      exact hmem_fin
    · rw [if_neg hcnd] at hm
      simp at hm
  · intro d2 hd2 hcons
    have hcons2 : (d2, q) ∈ fin.consults := by
      by_cases hcnd : ((synthNames names).filter
          (fun q2 => decide (q2 ∉ fin.seen))) = []
      · rw [if_pos hcnd] at hcons
        exact hcons
      · rw [if_neg hcnd] at hcons
        exact hcons
    have hd2_not_pre : d2 ∉ pre := fun hc =>
      hdisj hc (List.mem_cons_of_mem _ hd2)
    have hd2_ne_dir : d2 ≠ dir := fun hc => hdir_post (hc ▸ hd2)
    have hnc_mid : (d2, q) ∉ mid.consults := by
      intro hc
      cases dir_consult_sub scan fromPath names mid0 dir _ hc with
      | inl hl =>
        cases dirs_consult_tags scan fromPath names pre st0 _ hl with
        | inl h0 => simp [hst0] at h0
        | inr htag => exact hd2_not_pre htag
      | inr hr => exact hd2_ne_dir hr.1
    exact dirs_noconsult scan fromPath names post mid q d2 hq_res.2
      hnc_mid hcons2

/-- Witness for c4_first_match_wins: directories [A, B], a request for
"icon", icon.png present in A and icon.svg present in B; the entry from A
wins and B is never consulted for the query. -/
theorem c4_first_match_wins_witness :
    (∀ m, (Loader.call (H := String)
        (fun d2 q2 => if d2 == "A" && q2 == "icon.*" then ["A/icon.png"]
          else if d2 == "B" && q2 == "icon.*" then ["B/icon.svg"] else [])
        (fun p2 => p2) (⟨[], ["A", "B"]⟩ : LoaderState Nat) ["icon"]).1 =
        Except.ok m → (resKey ["icon"] "icon.*", "A/icon.png") ∈ m) ∧
    (∀ d2 ∈ ["B"], (d2, "icon.*") ∉ (Loader.call (H := String)
        (fun d2 q2 => if d2 == "A" && q2 == "icon.*" then ["A/icon.png"]
          else if d2 == "B" && q2 == "icon.*" then ["B/icon.svg"] else [])
        (fun p2 => p2) (⟨[], ["A", "B"]⟩ : LoaderState Nat) ["icon"]).2) :=
  c4_first_match_wins
    (fun d2 q2 => if d2 == "A" && q2 == "icon.*" then ["A/icon.png"]
      else if d2 == "B" && q2 == "icon.*" then ["B/icon.svg"] else [])
    (fun p2 => p2) ⟨[], ["A", "B"]⟩ ["icon"] "icon.*" "A/icon.png" "A" []
    [] ["B"] rfl (by decide) (by simp) (by decide) (by decide) (by decide)
